import Mathlib

/-!
Verification of the doi2pdf workflow (src/doi2pdf.py).

The Python program is shallowly embedded:
* Python strings are `List Char` (`PyStr`);
* the relevant parts of CPython 3.11's `urllib.parse` (`urlparse`,
  `urlunparse`, the `hostname` accessor) are modelled as executable
  functions, since `convert_to_hku_proxy` is defined through them;
* the network (`requests.get`) and the browser driver (selenium) are
  oracles supplied through an environment record, and the batch
  processor `process_dois` is a pure fold that also emits the sequence
  of externally visible browser calls (an event trace).
-/

namespace Doi2Pdf

/-- Python strings are modelled as lists of characters. -/
abbrev PyStr := List Char

/-- Coerce a Lean string literal into the Python-string model. -/
def pys (s : String) : PyStr := s.toList

/-- Models Python `s.replace(old, new)` for single-character `old`/`new`:
every occurrence of `a` is replaced by `b`. -/
def replaceChar (a b : Char) (s : PyStr) : PyStr :=
  s.map fun c => if c = a then b else c

/-- Models Python `s.lower()` on ASCII data (`Char.toLower` only maps
ASCII capitals, exactly like `str.lower` does on ASCII input). -/
def pyLower (s : PyStr) : PyStr := s.map Char.toLower

/-- Split at the first occurrence of `c`: returns the part before the
first `c` and, when `c` occurs, the part after it.  Models both
Python's `s.split(c, 1)` and `s.partition(c)`. -/
def splitFirst (c : Char) : PyStr → PyStr × Option PyStr
  | [] => ([], none)
  | x :: xs =>
    if x = c then ([], some xs)
    else
      let r := splitFirst c xs
      (x :: r.1, r.2)

/-- Split at the last occurrence of `c`: `some (before, after)` with
`s = before ++ c :: after` and `c ∉ after`; `none` when `c ∉ s`.
Models Python's `s.rfind(c)` / `s.rpartition(c)` decompositions. -/
def rsplitLast (c : Char) (s : PyStr) : Option (PyStr × PyStr) :=
  match splitFirst c s.reverse with
  | (revSeg, some revPre) => some (revPre.reverse, revSeg.reverse)
  | (_, none) => none

/-- The suffix of `s` after its last occurrence of `c` (all of `s` when
`c ∉ s`): Python's `s.rpartition(c)[2]`. -/
def afterLastChar (c : Char) (s : PyStr) : PyStr :=
  match rsplitLast c s with
  | some (_, aft) => aft
  | none => s

/-! ## Model of `urllib.parse` (CPython 3.11)

Only the pieces `convert_to_hku_proxy` and `doi_to_url` rely on are
modelled: `urlsplit`/`urlparse` without the bracketed-IPv6 validation
and the NFKC netloc check (both only raise `ValueError` on exotic
inputs that never occur in this development: every theorem below keeps
`[`, `]` and non-ASCII expansions out of the authority). -/

/-- `scheme_chars` of `urllib.parse`: ASCII letters, digits, `+`, `-`, `.`. -/
def isSchemeChar (c : Char) : Bool :=
  c.isAlpha || c.isDigit || c == '+' || c == '-' || c == '.'

/-- The characters `urlsplit` deletes from its input before parsing
(`_UNSAFE_URL_BYTES_TO_REMOVE`): tab, CR, LF. -/
def isCtlChar (c : Char) : Bool := c == '\t' || c == '\r' || c == '\n'

/-- Models the cleanup loop of `urlsplit`: remove every tab, CR, LF. -/
def stripCtl (s : PyStr) : PyStr := s.filter fun c => !isCtlChar c

/-- The delimiters ending the authority part (`_splitnetloc`). -/
def isNetlocDelim (c : Char) : Bool := c == '/' || c == '?' || c == '#'

/-- `_splitnetloc(url, 2)` applied to the part after the leading `//`:
the authority runs up to the earliest of `/`, `?`, `#`. -/
def splitnetloc (s : PyStr) : PyStr × PyStr :=
  (s.takeWhile (fun c => !isNetlocDelim c), s.dropWhile (fun c => !isNetlocDelim c))

/-- Result of `urlsplit`: scheme, netloc, path, query, fragment. -/
structure SplitResult where
  scheme : PyStr
  netloc : PyStr
  path : PyStr
  query : PyStr
  fragment : PyStr
deriving DecidableEq, Repr

/-- Models CPython `urllib.parse.urlsplit(url)` (default arguments:
empty default scheme, fragments allowed).  The scheme is split off at
the first `:` when the candidate before it is nonempty, starts with an
ASCII letter and consists of scheme characters; the authority is read
after a leading `//` up to the earliest of `/`, `?`, `#`; the fragment
is everything after the first remaining `#`, the query everything
after the first `?` before it. -/
def urlsplit (url0 : PyStr) : SplitResult :=
  let url1 := stripCtl url0
  let sp := splitFirst ':' url1
  let schemeOk := sp.2.isSome && !sp.1.isEmpty &&
    (sp.1.headD 'a').isAlpha && sp.1.all isSchemeChar
  let scheme := if schemeOk then pyLower sp.1 else []
  let url2 := if schemeOk then sp.2.getD [] else url1
  let nsp := splitnetloc (url2.drop 2)
  let netloc := if url2.take 2 = pys "//" then nsp.1 else []
  let url3 := if url2.take 2 = pys "//" then nsp.2 else url2
  let fsp := splitFirst '#' url3
  let qsp := splitFirst '?' fsp.1
  ⟨scheme, netloc, qsp.1, qsp.2.getD [], fsp.2.getD []⟩

/-- `uses_params` of `urllib.parse`. -/
def uses_params : List PyStr :=
  [[], pys "ftp", pys "hdl", pys "prospero", pys "http", pys "imap",
   pys "https", pys "shttp", pys "rtsp", pys "rtspu", pys "sip", pys "sips",
   pys "mms", pys "sftp", pys "tel"]

/-- `uses_netloc` of `urllib.parse`. -/
def uses_netloc : List PyStr :=
  [[], pys "ftp", pys "http", pys "gopher", pys "nntp", pys "telnet",
   pys "imap", pys "wais", pys "file", pys "mms", pys "https", pys "shttp",
   pys "snews", pys "prospero", pys "rtsp", pys "rtspu", pys "rsync",
   pys "svn", pys "svn+ssh", pys "sftp", pys "nfs", pys "git", pys "git+ssh",
   pys "ws", pys "wss"]

/-- `_splitparams`: split `;params` off the last path segment.  `urlparse`
only calls it when `;` occurs in the path, which the caller below
replicates. -/
def splitparams (p : PyStr) : PyStr × PyStr :=
  match rsplitLast '/' p with
  | some (before, seg) =>
    match splitFirst ';' seg with
    | (a, some b) => (before ++ '/' :: a, b)
    | (_, none) => (p, [])
  | none =>
    match splitFirst ';' p with
    | (a, some b) => (a, b)
    | (_, none) => (p, [])

/-- Result of `urlparse`: scheme, netloc, path, params, query, fragment. -/
structure ParseResult where
  scheme : PyStr
  netloc : PyStr
  path : PyStr
  params : PyStr
  query : PyStr
  fragment : PyStr
deriving DecidableEq, Repr

/-- Models CPython `urllib.parse.urlparse(url)`. -/
def urlparse (url : PyStr) : ParseResult :=
  let s := urlsplit url
  let pp :=
    if s.scheme ∈ uses_params ∧ ';' ∈ s.path then splitparams s.path
    else (s.path, [])
  ⟨s.scheme, s.netloc, pp.1, pp.2, s.query, s.fragment⟩

/-- Models CPython `urllib.parse.urlunsplit`. -/
def urlunsplit (scheme netloc path query fragment : PyStr) : PyStr :=
  let url1 :=
    if netloc ≠ [] ∨ (scheme ≠ [] ∧ scheme ∈ uses_netloc ∧ path.take 2 ≠ pys "//") then
      let p2 := if path ≠ [] ∧ path.take 1 ≠ pys "/" then '/' :: path else path
      '/' :: '/' :: (netloc ++ p2)
    else path
  let url2 := if scheme ≠ [] then scheme ++ ':' :: url1 else url1
  let url3 := if query ≠ [] then url2 ++ '?' :: query else url2
  if fragment ≠ [] then url3 ++ '#' :: fragment else url3

/-- Models CPython `urllib.parse.urlunparse`. -/
def urlunparse (p : ParseResult) : PyStr :=
  let path := if p.params ≠ [] then p.path ++ ';' :: p.params else p.path
  urlunsplit p.scheme p.netloc path p.query p.fragment

/-- Models the `hostname` accessor of a parse result, for authorities
without a bracketed (IPv6) host: the part of the netloc after the last
`@` and before the first `:`, lowercased, with an IPv6 zone id (after
`%`) preserved; `none` when that part is empty. -/
def pyHostname (netloc : PyStr) : Option PyStr :=
  let hostinfo := afterLastChar '@' netloc
  let host := hostinfo.takeWhile fun c => !(c == ':')
  if host = [] then none
  else
    let zsp := splitFirst '%' host
    if zsp.2.isSome then some (pyLower zsp.1 ++ '%' :: zsp.2.getD [])
    else some (pyLower zsp.1)

/-! ## The repository's URL functions -/

/-- The fixed institutional proxy suffix appended by the rewriter. -/
def hkuSuffix : PyStr := pys ".eproxy.lib.hku.hk"

/-- Embeds `convert_to_hku_proxy` of src/doi2pdf.py: parse, replace
every dot of the netloc by a dash, append the HKU proxy suffix,
reassemble. -/
def convert_to_hku_proxy (url : PyStr) : PyStr :=
  let parsed := urlparse url
  let proxy_netloc := replaceChar '.' '-' parsed.netloc ++ hkuSuffix
  urlunparse ⟨parsed.scheme, proxy_netloc, parsed.path, parsed.params,
              parsed.query, parsed.fragment⟩

/-! ## DOI resolver (`doi_to_url`)

`requests.get(resolver_url, allow_redirects=True, timeout=10)` together
with `response.raise_for_status()` is an external effect; it is
modelled by an oracle mapping the fetched URL to one of the three
outcomes the code distinguishes. -/

/-- Outcome of the HTTP fetch as `doi_to_url` observes it. -/
inductive HttpResult where
  /-- fetch and status check succeed; the final URL after redirects. -/
  | success (finalUrl : PyStr)
  /-- `raise_for_status` raised `requests.HTTPError` with message `msg`;
  `respUrl` is `e.response.url` when a response object is attached. -/
  | httpErr (respUrl : Option PyStr) (msg : PyStr)
  /-- any other `requests.RequestException` (timeout, DNS, connection). -/
  | reqErr (msg : PyStr)

/-- The static publisher table of `doi_to_url`. -/
def publisher_map : List (PyStr × String) :=
  [(pys "pubs.acs.org", "ACS"),
   (pys "sciencedirect.com", "Elsevier"),
   (pys "link.springer.com", "Springer"),
   (pys "onlinelibrary.wiley.com", "Wiley"),
   (pys "tandfonline.com", "Taylor & Francis"),
   (pys "cambridge.org", "Cambridge University Press"),
   (pys "nature.com", "Nature Publishing Group"),
   (pys "ieee.org", "IEEE"),
   (pys "royalsocietypublishing.org", "Royal Society")]

/-- `publisher_map.get(domain, "Unknown")`: exact-match lookup. -/
def lookupPub (domain : PyStr) : String :=
  match publisher_map.find? (fun kv => kv.1 == domain) with
  | some kv => kv.2
  | none => "Unknown"

/-- `f"https://doi.org/{doi}"`. -/
def resolver_url (doi : String) : PyStr := pys "https://doi.org/" ++ pys doi

/-- The sentinel prefix of a failed resolution:
`f"Error resolving DOI {doi}: "`. -/
def errMark (doi : String) : PyStr :=
  pys "Error resolving DOI " ++ pys doi ++ pys ": "

/-- Embeds `doi_to_url` of src/doi2pdf.py over a network oracle `net`:
resolve the DOI, tolerate an HTTP error that still carries a response
(using that response's URL), turn any other failure into the sentinel
error string, and classify the final URL's netloc through
`publisher_map`. -/
def doi_to_url (net : PyStr → HttpResult) (doi : String) : PyStr × String :=
  match net (resolver_url doi) with
  | .success u => (u, lookupPub (urlparse u).netloc)
  | .httpErr (some u) _ => (u, lookupPub (urlparse u).netloc)
  | .httpErr none e => (errMark doi ++ e, "Unknown")
  | .reqErr e => (errMark doi ++ e, "Unknown")

/-! ## Batch processor (`process_dois`)

The browser driver is an oracle; each externally visible call the loop
makes (navigation, the authentication pause, the page-load wait,
element lookup and click) is recorded in an event trace so that the
ordering claims can be stated. -/

/-- Externally visible steps of one batch run. -/
inductive Event where
  /-- `driver.get(url)`; `ok = false` when the call raised. -/
  | navigate (url : PyStr) (ok : Bool)
  /-- `time.sleep(seconds)`. -/
  | sleep (seconds : Nat)
  /-- `_wait_for_page_load(driver, timeout=wait_time)`. -/
  | waitLoad (timeout : Nat)
  /-- `driver.find_element(By.CLASS_NAME, className)`. -/
  | findElement (className : String)
  /-- `pdf_button.click()`. -/
  | clickElement
deriving DecidableEq, Repr

/-- Behaviour of the selenium driver, as an oracle keyed by the URL
being visited.  `some msg` models a raised exception whose `str` is
`msg`; for `find`, `.error msg` models the raise. -/
structure Driver where
  nav : PyStr → Option PyStr
  find : PyStr → String → Except PyStr Unit
  click : PyStr → String → Option PyStr

/-- The `proxy` parameter of `process_dois`: Python `None`, a string,
or a callable (which may raise, hence `Except`). -/
inductive ProxyParam where
  | pyNone
  | str (s : String)
  | func (f : PyStr → Except PyStr PyStr)

/-- Everything external to one `process_dois` call. -/
structure Env where
  net : PyStr → HttpResult
  driver : Driver
  wait_time : Nat
  proxy : ProxyParam

/-- The per-DOI info dict, finalized (every path of the loop body sets
every field it stores before `results[doi] = info`). -/
structure Record where
  doi : String
  url : PyStr
  publisher : String
  proxied_url : Option PyStr
  status : String
  actions : List String
  error : Option PyStr
deriving DecidableEq, Repr

/-- The proxy dispatch of `process_dois` (lines 109-118): `None` or
`'hku'` and any unknown string use `convert_to_hku_proxy`, `'none'`
passes the URL through, a callable is applied (and may raise). -/
def applyProxy (proxy : ProxyParam) (url : PyStr) : Except PyStr PyStr :=
  match proxy with
  | .pyNone => .ok (convert_to_hku_proxy url)
  | .str s =>
    if s = "hku" then .ok (convert_to_hku_proxy url)
    else if s = "none" then .ok url
    else .ok (convert_to_hku_proxy url)
  | .func f => f url

/-- The CSS class name of the ACS PDF button. -/
def pdfClass : String := "article__btn__secondary--pdf"

/-- Embeds the body of the `for doi in dois` loop of `process_dois`:
returns the finished record for this DOI, the browser events it
caused, and the updated `first_visit` flag.  The source's separate
`"Elsevier"` branch and `else` branch both set
`no_action_for_publisher`, so they appear here as one non-ACS branch. -/
def processOne (env : Env) (first : Bool) (doi : String) :
    Record × List Event × Bool :=
  let r := doi_to_url env.net doi
  let url := r.1
  let publisher := r.2
  if (pys "Error").isPrefixOf url then
    ({doi := doi, url := url, publisher := publisher, proxied_url := none,
      status := "resolve_failed", actions := [], error := none}, [], first)
  else
    match applyProxy env.proxy url with
    | .error e =>
      ({doi := doi, url := url, publisher := publisher, proxied_url := none,
        status := "proxy_error", actions := [],
        error := some (pys "proxy function error: " ++ e)}, [], first)
    | .ok proxied =>
      match env.driver.nav proxied with
      | some e =>
        ({doi := doi, url := url, publisher := publisher,
          proxied_url := some proxied, status := "navigation_error",
          actions := [], error := some e},
         [Event.navigate proxied false], first)
      | none =>
        let pause := if first then [Event.sleep 20]
                     else [Event.waitLoad env.wait_time]
        if publisher = "ACS" then
          match env.driver.find proxied pdfClass with
          | .error e =>
            ({doi := doi, url := url, publisher := publisher,
              proxied_url := some proxied, status := "click_pdf_failed",
              actions := [], error := some e},
             Event.navigate proxied true :: pause ++ [Event.findElement pdfClass],
             false)
          | .ok _ =>
            match env.driver.click proxied pdfClass with
            | some e =>
              ({doi := doi, url := url, publisher := publisher,
                proxied_url := some proxied, status := "click_pdf_failed",
                actions := [], error := some e},
               Event.navigate proxied true ::
                 pause ++ [Event.findElement pdfClass, Event.clickElement],
               false)
            | none =>
              ({doi := doi, url := url, publisher := publisher,
                proxied_url := some proxied, status := "pdf_clicked",
                actions := ["clicked_pdf_button"], error := none},
               Event.navigate proxied true ::
                 pause ++ [Event.findElement pdfClass, Event.clickElement,
                           Event.sleep 3],
               false)
        else
          ({doi := doi, url := url, publisher := publisher,
            proxied_url := some proxied, status := "no_action_for_publisher",
            actions := [], error := none},
           Event.navigate proxied true :: pause, false)

/-- `results[doi] = info` on a Python dict: update the value in place
when the key exists, else append. -/
def dictInsert (k : String) (v : Record) :
    List (String × Record) → List (String × Record)
  | [] => [(k, v)]
  | kv :: rest =>
    if kv.1 = k then (k, v) :: rest else kv :: dictInsert k v rest

/-- The `for` loop of `process_dois`, threading the result dict, the
event trace and the `first_visit` flag. -/
def processLoop (env : Env) :
    Bool → List (String × Record) → List Event → List String →
    List (String × Record) × List Event
  | _, results, trace, [] => (results, trace)
  | first, results, trace, doi :: rest =>
    let r := processOne env first doi
    processLoop env r.2.2 (dictInsert doi r.1 results) (trace ++ r.2.1) rest

/-- Embeds `process_dois` of src/doi2pdf.py: iterate over the DOIs with
`first_visit = True`, an empty result dict, and an empty trace. -/
def process_dois (env : Env) (dois : List String) :
    List (String × Record) × List Event :=
  processLoop env true [] [] dois

/-- The closed status vocabulary of the result records. -/
def statusVocab : List String :=
  ["resolve_failed", "proxy_error", "pdf_clicked", "click_pdf_failed",
   "no_action_for_publisher", "navigation_error"]

/-! ## Downloader facade -/

/-- The facade state the verified claims touch: the DOI queue and the
owned driver handle (`none` models a falsy `_driver`). -/
structure DOI2PDFDownloader where
  queue : List String
  driver : Option Unit

/-- The dynamically typed argument of `add_dois`: one string, or a list
of strings. -/
inductive DoiArg where
  | one (s : String)
  | many (l : List String)

/-- Embeds `DOI2PDFDownloader.add_dois`: `isinstance(dois, str)` appends
the string as a single entry, otherwise the queue is extended with the
elements in order. -/
def DOI2PDFDownloader.add_dois (d : DOI2PDFDownloader) (arg : DoiArg) :
    DOI2PDFDownloader :=
  match arg with
  | .one s => {d with queue := d.queue ++ [s]}
  | .many l => {d with queue := d.queue ++ l}

/-- Embeds `DOI2PDFDownloader.close` over an oracle for the driver
teardown: `quitErr = some msg` models `self._driver.quit()` raising.
The returned value is what the caller observes (`.error` would model a
propagated exception). -/
def DOI2PDFDownloader.close (d : DOI2PDFDownloader) (quitErr : Option PyStr) :
    Except PyStr Unit :=
  match d.driver with
  | none => .ok ()
  | some _ =>
    match quitErr with
    | some _ => .ok ()
    | none => .ok ()

/-- A whole sequence of `close` calls, one teardown outcome per call. -/
def closeRuns (d : DOI2PDFDownloader) (quitErrs : List (Option PyStr)) :
    List (Except PyStr Unit) :=
  quitErrs.map d.close

/-! ## Observables used to state the claims -/

/-- Number of 20-second pauses in a trace. -/
def countSleep20 (t : List Event) : Nat :=
  t.countP fun e => decide (e = Event.sleep 20)

/-- Whether a trace contains a successful navigation. -/
def hasNavOk (t : List Event) : Bool :=
  t.any fun e =>
    match e with
    | .navigate _ true => true
    | _ => false

/-- Events that may sit between two navigations without affecting the
pause discipline: anything except a navigation or a 20-second sleep. -/
def benignEvent (e : Event) : Bool :=
  match e with
  | .navigate _ _ => false
  | .sleep n => decide (n ≠ 20)
  | _ => true

/-- The pause discipline of a batch trace, given the configured
`wait_time` `w` and the incoming `first_visit` flag: every successful
navigation is immediately followed by the 20-second authentication
pause when the flag is still set (and the flag clears), by a page-load
wait with timeout `w` otherwise; a 20-second sleep occurs nowhere
else. -/
def pauseDiscipline (w : Nat) : Bool → List Event → Bool
  | _, [] => true
  | true, .navigate _ true :: .sleep 20 :: rest => pauseDiscipline w false rest
  | true, .navigate _ true :: _ => false
  | false, .navigate _ true :: .waitLoad t :: rest =>
    decide (t = w) && pauseDiscipline w false rest
  | false, .navigate _ true :: _ => false
  | first, .sleep n :: rest => decide (n ≠ 20) && pauseDiscipline w first rest
  | first, _ :: rest => pauseDiscipline w first rest

/-- Characters admissible in an authority that is exactly a host name
(possibly with userinfo): everything except the authority/port
delimiters, brackets, the zone separator and the characters `urlsplit`
strips. -/
def netlocOkChar (c : Char) : Bool :=
  !(c == ':' || c == '/' || c == '?' || c == '#' || c == '[' || c == ']' ||
    c == '%' || isCtlChar c)

/-! ## Concrete fixtures used by the witnesses -/

/-- A driver whose navigation, lookup and click all succeed. -/
def driverOk : Driver :=
  ⟨fun _ => none, fun _ _ => .ok (), fun _ _ => none⟩

/-- A driver whose element lookup raises. -/
def driverFindFail : Driver :=
  ⟨fun _ => none, fun _ _ => .error (pys "no such element"), fun _ _ => none⟩

/-- A driver whose navigation raises. -/
def driverNavFail : Driver :=
  ⟨fun _ => some (pys "net::ERR_FAILED"), fun _ _ => .ok (), fun _ _ => none⟩

/-- A network oracle resolving every DOI to the ACS example URL. -/
def netACS : PyStr → HttpResult :=
  fun _ => .success (pys "https://pubs.acs.org/doi/10.1021/acscatal.9b05338")

/-- A network oracle resolving every DOI to an unlisted host. -/
def netOther : PyStr → HttpResult :=
  fun _ => .success (pys "https://example.com/a")

/-- A network oracle with a transport-level failure. -/
def netDown : PyStr → HttpResult :=
  fun _ => .reqErr (pys "connection refused")

/-- A driver whose click raises. -/
def driverClickFail : Driver :=
  ⟨fun _ => none, fun _ _ => .ok (), fun _ _ => some (pys "not interactable")⟩

/-- A network oracle raising an HTTP error without a response. -/
def netHttpNone : PyStr → HttpResult := fun _ => .httpErr none (pys "boom")

/-- A network oracle raising an HTTP error that still carries a
response with a final URL. -/
def netHttpSome : PyStr → HttpResult :=
  fun _ => .httpErr (some (pys "https://example.com/a")) (pys "404 Client Error")

/-- The environment of the happy-path witnesses. -/
def envACS : Env := ⟨netACS, driverOk, 10, .pyNone⟩

/-- An environment whose resolver always fails. -/
def envDown : Env := ⟨netDown, driverOk, 10, .pyNone⟩

/-- The happy-path environment with a chosen proxy parameter. -/
def envWith (p : ProxyParam) : Env := ⟨netACS, driverOk, 10, p⟩

/-- Happy-path resolution, element lookup raising. -/
def envFindFail : Env := ⟨netACS, driverFindFail, 10, .pyNone⟩

/-- Happy-path resolution, click raising. -/
def envClickFail : Env := ⟨netACS, driverClickFail, 10, .pyNone⟩

/-- Happy-path resolution, navigation raising. -/
def envNavFail : Env := ⟨netACS, driverNavFail, 10, .pyNone⟩

/-- Resolution to an unlisted publisher. -/
def envOther : Env := ⟨netOther, driverOk, 10, .pyNone⟩

/-- A proxy callable that always raises. -/
def proxyFnBad : ProxyParam := .func fun _ => .error (pys "boom")

/-- A proxy callable that succeeds. -/
def proxyFnOk : ProxyParam := .func fun u => .ok (pys "https://m.org/" ++ u)

/-! # Theorems -/

/-! ## Generic list lemmas -/

theorem isPrefixOf_append_self (l t : PyStr) : l.isPrefixOf (l ++ t) = true := by
  induction l with
  | nil => simp [List.isPrefixOf]
  | cons a l ih => simp [List.isPrefixOf, ih]

/-! ## C4: resolver failure policy -/

/-- C4.  A transport-level failure, or an HTTP error without a usable
response, makes `doi_to_url` return the sentinel string
`"Error resolving DOI {doi}: {e}"` with publisher `"Unknown"`; an HTTP
error that still carries a response with a final URL is tolerated and
that URL is used. -/
theorem C4_resolver_failure (net : PyStr → HttpResult) (doi : String) :
    (∀ e, net (resolver_url doi) = .reqErr e →
      doi_to_url net doi = (errMark doi ++ e, "Unknown") ∧
      (errMark doi).isPrefixOf (doi_to_url net doi).1 = true) ∧
    (∀ e, net (resolver_url doi) = .httpErr none e →
      doi_to_url net doi = (errMark doi ++ e, "Unknown") ∧
      (errMark doi).isPrefixOf (doi_to_url net doi).1 = true) ∧
    (∀ u e, net (resolver_url doi) = .httpErr (some u) e →
      (doi_to_url net doi).1 = u) := by
  refine ⟨fun e h => ?_, fun e h => ?_, fun u e h => ?_⟩ <;>
    simp [doi_to_url, h, isPrefixOf_append_self]

/-- Witness for C4 at concrete oracles. -/
theorem C4_witness :
    (doi_to_url netDown "10.1021/x" =
      (errMark "10.1021/x" ++ pys "connection refused", "Unknown") ∧
     (errMark "10.1021/x").isPrefixOf (doi_to_url netDown "10.1021/x").1 = true) ∧
    (doi_to_url netHttpNone "10.1021/x" =
      (errMark "10.1021/x" ++ pys "boom", "Unknown") ∧
     (errMark "10.1021/x").isPrefixOf (doi_to_url netHttpNone "10.1021/x").1 = true) ∧
    (doi_to_url netHttpSome "10.1021/x").1 = pys "https://example.com/a" :=
  ⟨(C4_resolver_failure netDown "10.1021/x").1 (pys "connection refused") rfl,
   (C4_resolver_failure netHttpNone "10.1021/x").2.1 (pys "boom") rfl,
   (C4_resolver_failure netHttpSome "10.1021/x").2.2
     (pys "https://example.com/a") (pys "404 Client Error") rfl⟩

/-! ## Equations of the loop body -/

theorem po_proxy_err (env : Env) (first : Bool) (doi : String) (e : PyStr)
    (hres : (pys "Error").isPrefixOf (doi_to_url env.net doi).1 = false)
    (hp : applyProxy env.proxy (doi_to_url env.net doi).1 = .error e) :
    processOne env first doi =
      ({doi := doi, url := (doi_to_url env.net doi).1,
        publisher := (doi_to_url env.net doi).2, proxied_url := none,
        status := "proxy_error", actions := [],
        error := some (pys "proxy function error: " ++ e)}, [], first) := by
  simp [processOne, hres, hp]

theorem po_nav_err (env : Env) (first : Bool) (doi : String) (proxied e : PyStr)
    (hres : (pys "Error").isPrefixOf (doi_to_url env.net doi).1 = false)
    (hp : applyProxy env.proxy (doi_to_url env.net doi).1 = .ok proxied)
    (hnav : env.driver.nav proxied = some e) :
    processOne env first doi =
      ({doi := doi, url := (doi_to_url env.net doi).1,
        publisher := (doi_to_url env.net doi).2, proxied_url := some proxied,
        status := "navigation_error", actions := [], error := some e},
       [Event.navigate proxied false], first) := by
  simp [processOne, hres, hp, hnav]

theorem po_acs_ok (env : Env) (first : Bool) (doi : String) (proxied : PyStr)
    (hres : (pys "Error").isPrefixOf (doi_to_url env.net doi).1 = false)
    (hp : applyProxy env.proxy (doi_to_url env.net doi).1 = .ok proxied)
    (hnav : env.driver.nav proxied = none)
    (hpub : (doi_to_url env.net doi).2 = "ACS")
    (hfind : env.driver.find proxied pdfClass = .ok ())
    (hclick : env.driver.click proxied pdfClass = none) :
    processOne env first doi =
      ({doi := doi, url := (doi_to_url env.net doi).1,
        publisher := (doi_to_url env.net doi).2, proxied_url := some proxied,
        status := "pdf_clicked", actions := ["clicked_pdf_button"],
        error := none},
       Event.navigate proxied true ::
         (if first then [Event.sleep 20] else [Event.waitLoad env.wait_time]) ++
         [Event.findElement pdfClass, Event.clickElement, Event.sleep 3],
       false) := by
  simp [processOne, hres, hp, hnav, hpub, hfind, hclick]

theorem po_acs_find_err (env : Env) (first : Bool) (doi : String)
    (proxied e : PyStr)
    (hres : (pys "Error").isPrefixOf (doi_to_url env.net doi).1 = false)
    (hp : applyProxy env.proxy (doi_to_url env.net doi).1 = .ok proxied)
    (hnav : env.driver.nav proxied = none)
    (hpub : (doi_to_url env.net doi).2 = "ACS")
    (hfind : env.driver.find proxied pdfClass = .error e) :
    processOne env first doi =
      ({doi := doi, url := (doi_to_url env.net doi).1,
        publisher := (doi_to_url env.net doi).2, proxied_url := some proxied,
        status := "click_pdf_failed", actions := [], error := some e},
       Event.navigate proxied true ::
         (if first then [Event.sleep 20] else [Event.waitLoad env.wait_time]) ++
         [Event.findElement pdfClass],
       false) := by
  simp [processOne, hres, hp, hnav, hpub, hfind]

theorem po_acs_click_err (env : Env) (first : Bool) (doi : String)
    (proxied e : PyStr)
    (hres : (pys "Error").isPrefixOf (doi_to_url env.net doi).1 = false)
    (hp : applyProxy env.proxy (doi_to_url env.net doi).1 = .ok proxied)
    (hnav : env.driver.nav proxied = none)
    (hpub : (doi_to_url env.net doi).2 = "ACS")
    (hfind : env.driver.find proxied pdfClass = .ok ())
    (hclick : env.driver.click proxied pdfClass = some e) :
    processOne env first doi =
      ({doi := doi, url := (doi_to_url env.net doi).1,
        publisher := (doi_to_url env.net doi).2, proxied_url := some proxied,
        status := "click_pdf_failed", actions := [], error := some e},
       Event.navigate proxied true ::
         (if first then [Event.sleep 20] else [Event.waitLoad env.wait_time]) ++
         [Event.findElement pdfClass, Event.clickElement],
       false) := by
  simp [processOne, hres, hp, hnav, hpub, hfind, hclick]

theorem po_no_action (env : Env) (first : Bool) (doi : String) (proxied : PyStr)
    (hres : (pys "Error").isPrefixOf (doi_to_url env.net doi).1 = false)
    (hp : applyProxy env.proxy (doi_to_url env.net doi).1 = .ok proxied)
    (hnav : env.driver.nav proxied = none)
    (hpub : (doi_to_url env.net doi).2 ≠ "ACS") :
    processOne env first doi =
      ({doi := doi, url := (doi_to_url env.net doi).1,
        publisher := (doi_to_url env.net doi).2, proxied_url := some proxied,
        status := "no_action_for_publisher", actions := [], error := none},
       Event.navigate proxied true ::
         (if first then [Event.sleep 20] else [Event.waitLoad env.wait_time]),
       false) := by
  simp [processOne, hres, hp, hnav, hpub]

/-! ## String-splitting lemmas for the URL round trip -/

theorem splitFirst_not_mem (c : Char) (s : PyStr) (h : c ∉ s) :
    splitFirst c s = (s, none) := by
  induction s with
  | nil => rfl
  | cons x xs ih =>
    simp only [List.mem_cons, not_or] at h
    have hx : ¬(x = c) := fun hc => h.1 hc.symm
    simp [splitFirst, hx, ih h.2]

theorem splitFirst_append (c : Char) (xs ys : PyStr) (h : c ∉ xs) :
    splitFirst c (xs ++ c :: ys) = (xs, some ys) := by
  induction xs with
  | nil => simp [splitFirst]
  | cons x rest ih =>
    simp only [List.mem_cons, not_or] at h
    have hx : ¬(x = c) := fun hc => h.1 hc.symm
    simp [splitFirst, hx, ih h.2]

theorem splitFirst_eq_none_spec (c : Char) (s a : PyStr)
    (h : splitFirst c s = (a, none)) : a = s ∧ c ∉ s := by
  induction s generalizing a with
  | nil =>
    simp only [splitFirst, Prod.mk.injEq] at h
    simp [← h.1]
  | cons x xs ih =>
    by_cases hx : x = c
    · simp [splitFirst, hx] at h
    · simp only [splitFirst, if_neg hx] at h
      cases hsp : splitFirst c xs with
      | mk a2 o2 =>
        rw [hsp] at h
        cases o2 with
        | some b => simp at h
        | none =>
          simp only [Prod.mk.injEq] at h
          rcases ih a2 hsp with ⟨he, hm⟩
          refine ⟨?_, ?_⟩
          · rw [← h.1, he]
          · simp only [List.mem_cons, not_or]
            exact ⟨fun hc => hx hc.symm, hm⟩

theorem takeWhile_all (p : Char → Bool) (s : PyStr)
    (h : ∀ x ∈ s, p x = true) : s.takeWhile p = s := by
  induction s with
  | nil => rfl
  | cons x xs ih =>
    simp only [List.takeWhile_cons]
    rw [h x (List.mem_cons_self x xs)]
    simp [ih fun y hy => h y (List.mem_cons_of_mem x hy)]

theorem takeWhile_append_stop (p : Char → Bool) (xs ys : PyStr)
    (h : ∀ x ∈ xs, p x = true)
    (h2 : ys = [] ∨ ∃ y ys2, ys = y :: ys2 ∧ p y = false) :
    (xs ++ ys).takeWhile p = xs ∧ (xs ++ ys).dropWhile p = ys := by
  induction xs with
  | nil =>
    rcases h2 with h2 | ⟨y, ys2, h2, hpy⟩
    · simp [h2]
    · subst h2; simp [List.takeWhile_cons, List.dropWhile_cons, hpy]
  | cons x rest ih =>
    have hx := h x (List.mem_cons_self x rest)
    have hr := ih fun y hy => h y (List.mem_cons_of_mem x hy)
    simp [List.takeWhile_cons, List.dropWhile_cons, hx, hr.1, hr.2]

theorem stripCtl_eq_self (s : PyStr) (h : ∀ c ∈ s, isCtlChar c = false) :
    stripCtl s = s := by
  rw [stripCtl, List.filter_eq_self]
  intro c hc
  simp [h c hc]

theorem not_mem_of_all {s : PyStr} {p : Char → Bool} (h : s.all p = true)
    {c : Char} (hc : p c = false) : c ∉ s := by
  intro hm
  have := List.all_eq_true.mp h c hm
  rw [hc] at this
  exact Bool.false_ne_true this

theorem rsplitLast_append (c : Char) (b s : PyStr) (h : c ∉ s) :
    rsplitLast c (b ++ c :: s) = some (b, s) := by
  have hrev : (b ++ c :: s).reverse = s.reverse ++ c :: b.reverse := by
    simp
  rw [rsplitLast, hrev, splitFirst_append c _ _ (by simpa using h)]
  simp

theorem rsplitLast_not_mem (c : Char) (s : PyStr) (h : c ∉ s) :
    rsplitLast c s = none := by
  rw [rsplitLast, splitFirst_not_mem c s.reverse (by simpa using h)]

theorem rsplitLast_eq_none (c : Char) (s : PyStr) (h : rsplitLast c s = none) :
    c ∉ s := by
  rw [rsplitLast] at h
  cases hsp : splitFirst c s.reverse with
  | mk a o =>
    rw [hsp] at h
    cases o with
    | some b => simp at h
    | none =>
      have := (splitFirst_eq_none_spec c s.reverse a hsp).2
      simpa using this

theorem splitFirst_eq_some_spec (c : Char) (s : PyStr) :
    ∀ a b, splitFirst c s = (a, some b) → s = a ++ c :: b ∧ c ∉ a := by
  induction s with
  | nil => intro a b h; simp [splitFirst] at h
  | cons x rest ih =>
    intro a b h
    by_cases hx : x = c
    · subst hx
      simp [splitFirst] at h
      rw [h.1, ← h.2]
      simp
    · simp only [splitFirst, if_neg hx] at h
      cases hr : splitFirst c rest with
      | mk v o =>
        rw [hr] at h
        cases o with
        | none => simp at h
        | some b2 =>
          simp only [Prod.mk.injEq, Option.some.injEq] at h
          rcases h with ⟨h1, h2⟩
          rcases ih v b2 hr with ⟨he, hm⟩
          subst h2
          refine ⟨by rw [← h1, he]; simp, ?_⟩
          rw [← h1]
          simp only [List.mem_cons, not_or]
          exact ⟨fun hc => hx hc.symm, hm⟩

theorem rsplitLast_eq_some_spec (c : Char) (s b a : PyStr)
    (h : rsplitLast c s = some (b, a)) : s = b ++ c :: a ∧ c ∉ a := by
  rw [rsplitLast] at h
  cases hsp : splitFirst c s.reverse with
  | mk seg o =>
    rw [hsp] at h
    cases o with
    | none => simp at h
    | some pre =>
      simp only [Option.some.injEq, Prod.mk.injEq] at h
      rcases splitFirst_eq_some_spec c s.reverse seg pre hsp with ⟨he, hm⟩
      have hs : s = pre.reverse ++ c :: seg.reverse := by
        have := congrArg List.reverse he
        simpa using this
      constructor
      · rw [← h.1, ← h.2]; exact hs
      · rw [← h.2]; simpa using hm

theorem afterLastChar_subset (c : Char) (s : PyStr) :
    ∀ x ∈ afterLastChar c s, x ∈ s := by
  intro x hx
  rw [afterLastChar] at hx
  cases hr : rsplitLast c s with
  | none => rw [hr] at hx; exact hx
  | some ba =>
    rw [hr] at hx
    have := (rsplitLast_eq_some_spec c s ba.1 ba.2 (by rw [hr])).1
    rw [this]
    simp only [List.mem_append, List.mem_cons]
    exact Or.inr (Or.inr hx)

/-! ## Character-map lemmas -/

theorem not_mem_replaceChar {x a b : Char} (hxb : x ≠ b) {s : PyStr}
    (h : x ∉ s) : x ∉ replaceChar a b s := by
  intro hx
  rcases List.mem_map.mp hx with ⟨y, hy, hxy⟩
  by_cases hya : y = a
  · rw [if_pos hya] at hxy; exact hxb hxy.symm
  · rw [if_neg hya] at hxy; exact h (hxy ▸ hy)

theorem replaceChar_append (a b : Char) (s t : PyStr) :
    replaceChar a b (s ++ t) = replaceChar a b s ++ replaceChar a b t := by
  simp [replaceChar]

theorem toLower_eq_dot {c : Char} (h : c.toLower = '.') : c = '.' := by
  have h0 : (if c.toNat ≥ 65 ∧ c.toNat ≤ 90 then Char.ofNat (c.toNat + 32)
      else c) = '.' := h
  split at h0
  · next hc =>
    exfalso
    have hv : (c.toNat + 32).isValidChar := by
      left
      omega
    rw [Char.ofNat, dif_pos hv] at h0
    have h1 : (Char.ofNatAux (c.toNat + 32) hv).toNat = Char.toNat '.' := by
      rw [h0]
    have h2 : (Char.ofNatAux (c.toNat + 32) hv).toNat = c.toNat + 32 := rfl
    have h3 : Char.toNat '.' = 46 := rfl
    omega
  · exact h0

theorem pyLower_replaceChar_dot (s : PyStr) :
    pyLower (replaceChar '.' '-' s) = replaceChar '.' '-' (pyLower s) := by
  simp only [pyLower, replaceChar, List.map_map]
  apply List.map_congr_left
  intro c _
  simp only [Function.comp_apply]
  by_cases hc : c = '.'
  · subst hc; simp
  · have h2 : Char.toLower c ≠ '.' := fun h => hc (toLower_eq_dot h)
    simp [hc, h2]

theorem pyLower_append (s t : PyStr) :
    pyLower (s ++ t) = pyLower s ++ pyLower t := by
  simp [pyLower]

theorem schemeChar_not_ctl {c : Char} (h : isSchemeChar c = true) :
    isCtlChar c = false := by
  cases hct : isCtlChar c with
  | false => rfl
  | true =>
    exfalso
    simp only [isCtlChar, Bool.or_eq_true, beq_iff_eq] at hct
    rcases hct with (h1 | h1) | h1 <;> subst h1 <;> exact absurd h (by decide)

theorem netlocOk_spec {c : Char} (h : netlocOkChar c = true) :
    c ≠ ':' ∧ isNetlocDelim c = false ∧ isCtlChar c = false ∧ c ≠ '%' := by
  simp only [netlocOkChar, Bool.not_eq_true', Bool.or_eq_false_iff,
    beq_eq_false_iff_ne, ne_eq] at h
  obtain ⟨⟨⟨⟨⟨⟨⟨h1, h2⟩, h3⟩, h4⟩, h5⟩, h6⟩, h7⟩, h8⟩ := h
  refine ⟨h1, ?_, h8, h7⟩
  simp only [isNetlocDelim, Bool.or_eq_false_iff, beq_eq_false_iff_ne, ne_eq]
  exact ⟨⟨h2, h3⟩, h4⟩

theorem replaceChar_pointwise {P : Char → Prop} {a b : Char} (hb : P b)
    {s : PyStr} (h : ∀ c ∈ s, P c) : ∀ c ∈ replaceChar a b s, P c := by
  intro c hc
  rcases List.mem_map.mp hc with ⟨y, hy, hf⟩
  by_cases hya : y = a
  · rw [if_pos hya] at hf; exact hf ▸ hb
  · rw [if_neg hya] at hf; exact hf ▸ h y hy

/-- The string `urlunparse` builds, written as one explicit
concatenation (for a nonempty scheme and netloc, and a path that is
empty or absolute). -/
theorem urlunparse_concrete (q : ParseResult) (hs0 : q.scheme ≠ [])
    (hn0 : q.netloc ≠ [])
    (hpa0 : q.path = [] ∨ q.path.headD ' ' = '/')
    (hpr0 : q.params ≠ [] → q.path ≠ []) :
    urlunparse q =
      q.scheme ++ ':' :: '/' :: '/' ::
        (q.netloc ++
          ((if q.params = [] then q.path else q.path ++ ';' :: q.params) ++
           ((if q.query = [] then [] else '?' :: q.query) ++
            (if q.fragment = [] then [] else '#' :: q.fragment)))) := by
  have hpw : (if q.params = [] then q.path else q.path ++ ';' :: q.params) =
      (if q.params ≠ [] then q.path ++ ';' :: q.params else q.path) := by
    by_cases hp : q.params = [] <;> simp [hp]
  have hstart : (if q.params = [] then q.path else q.path ++ ';' :: q.params) = []
      ∨ (if q.params = [] then q.path else q.path ++ ';' :: q.params).headD ' '
        = '/' := by
    by_cases hp : q.params = []
    · simpa [hp] using hpa0
    · rcases hpa0 with h0 | h0
      · exact absurd h0 (hpr0 hp)
      · right
        rcases List.exists_cons_of_ne_nil (hpr0 hp) with ⟨c0, t0, hc0⟩
        rw [hc0] at h0 ⊢
        simpa [hp] using h0
  rw [urlunparse, urlunsplit, ← hpw]
  have hcond : q.netloc ≠ [] ∨ (q.scheme ≠ [] ∧ q.scheme ∈ uses_netloc ∧
      (if q.params = [] then q.path else q.path ++ ';' :: q.params).take 2 ≠
        pys "//") := Or.inl hn0
  rw [if_pos hcond]
  have hp2 : (if (if q.params = [] then q.path else q.path ++ ';' :: q.params) ≠ [] ∧
      (if q.params = [] then q.path else q.path ++ ';' :: q.params).take 1 ≠
        pys "/" then
        '/' :: (if q.params = [] then q.path else q.path ++ ';' :: q.params)
      else (if q.params = [] then q.path else q.path ++ ';' :: q.params)) =
      (if q.params = [] then q.path else q.path ++ ';' :: q.params) := by
    rcases hstart with h0 | h0
    · rw [if_neg]
      intro hc
      exact hc.1 h0
    · rw [if_neg]
      intro hc
      rcases List.exists_cons_of_ne_nil hc.1 with ⟨c0, t0, hc0⟩
      rw [hc0] at h0 hc
      simp only [List.headD_cons] at h0
      subst h0
      exact hc.2 (by simp [pys])
  rw [hp2, if_pos hs0]
  by_cases hq : q.query = [] <;> by_cases hf : q.fragment = [] <;>
    simp [hq, hf, List.append_assoc]

/-- Re-parsing the string `urlunparse` builds recovers the components,
for a well-formed absolute URL: nonempty lowercase scheme of scheme
characters starting with a letter, nonempty authority free of
authority delimiters, an empty-or-absolute path free of `#`, `?` and
`;`-in-the-wrong-place, and components free of the characters the
splitting pipeline keys on. -/
theorem urlsplit_roundtrip (q : ParseResult)
    (hs0 : q.scheme ≠ [])
    (hs1 : q.scheme.all isSchemeChar = true)
    (hs2 : (q.scheme.headD 'a').isAlpha = true)
    (hs3 : pyLower q.scheme = q.scheme)
    (hn1 : ∀ c ∈ q.netloc, isNetlocDelim c = false)
    (hn2 : ∀ c ∈ q.netloc, isCtlChar c = false)
    (hpa0 : q.path = [] ∨ q.path.headD ' ' = '/')
    (hpa2 : '#' ∉ q.path) (hpa3 : '?' ∉ q.path)
    (hpa4 : ∀ c ∈ q.path, isCtlChar c = false)
    (hpr0 : q.params ≠ [] → q.path ≠ [])
    (hpr2 : '#' ∉ q.params) (hpr3 : '?' ∉ q.params)
    (hpr4 : ∀ c ∈ q.params, isCtlChar c = false)
    (hq1 : '#' ∉ q.query)
    (hq2 : ∀ c ∈ q.query, isCtlChar c = false)
    (hf1 : ∀ c ∈ q.fragment, isCtlChar c = false)
    (hn0 : q.netloc ≠ []) :
    urlsplit (urlunparse q) =
      ⟨q.scheme, q.netloc,
       if q.params = [] then q.path else q.path ++ ';' :: q.params,
       q.query, q.fragment⟩ := by
  have hU := urlunparse_concrete q hs0 hn0 hpa0 hpr0
  set PW := (if q.params = [] then q.path else q.path ++ ';' :: q.params)
    with hPWdef
  set OQ := (if q.query = [] then ([] : PyStr) else '?' :: q.query) with hOQdef
  set OF := (if q.fragment = [] then ([] : PyStr) else '#' :: q.fragment)
    with hOFdef
  obtain ⟨c0, t0, hc0⟩ := List.exists_cons_of_ne_nil hs0
  -- character facts
  have hcolon : ':' ∉ q.scheme := not_mem_of_all hs1 (by decide)
  have hschctl : ∀ c ∈ q.scheme, isCtlChar c = false := fun c hc =>
    schemeChar_not_ctl (List.all_eq_true.mp hs1 c hc)
  have hPWctl : ∀ c ∈ PW, isCtlChar c = false := by
    rw [hPWdef]
    by_cases hp : q.params = []
    · simpa [hp] using hpa4
    · rw [if_neg hp]
      intro c hc
      rcases List.mem_append.mp hc with hc | hc
      · exact hpa4 c hc
      · rcases List.mem_cons.mp hc with rfl | hc
        · rfl
        · exact hpr4 c hc
  have hOQctl : ∀ c ∈ OQ, isCtlChar c = false := by
    rw [hOQdef]
    by_cases hq : q.query = []
    · simp [hq]
    · rw [if_neg hq]
      intro c hc
      rcases List.mem_cons.mp hc with rfl | hc
      · rfl
      · exact hq2 c hc
  have hOFctl : ∀ c ∈ OF, isCtlChar c = false := by
    rw [hOFdef]
    by_cases hf : q.fragment = []
    · simp [hf]
    · rw [if_neg hf]
      intro c hc
      rcases List.mem_cons.mp hc with rfl | hc
      · rfl
      · exact hf1 c hc
  have hPWh : '#' ∉ PW := by
    rw [hPWdef]
    by_cases hp : q.params = []
    · simpa [hp] using hpa2
    · rw [if_neg hp]
      simp only [List.mem_append, List.mem_cons, not_or]
      exact ⟨hpa2, by decide, hpr2⟩
  have hPWq : '?' ∉ PW := by
    rw [hPWdef]
    by_cases hp : q.params = []
    · simpa [hp] using hpa3
    · rw [if_neg hp]
      simp only [List.mem_append, List.mem_cons, not_or]
      exact ⟨hpa3, by decide, hpr3⟩
  have hOQh : '#' ∉ OQ := by
    rw [hOQdef]
    by_cases hq : q.query = []
    · simp [hq]
    · rw [if_neg hq]
      simp only [List.mem_cons, not_or]
      exact ⟨by decide, hq1⟩
  -- the whole unparsed string is free of tab, CR, LF
  have hctlU : ∀ c ∈ q.scheme ++ ':' :: '/' :: '/' ::
      (q.netloc ++ (PW ++ (OQ ++ OF))), isCtlChar c = false := by
    intro c hc
    rcases List.mem_append.mp hc with hc | hc
    · exact hschctl c hc
    · rcases List.mem_cons.mp hc with rfl | hc
      · rfl
      · rcases List.mem_cons.mp hc with rfl | hc
        · rfl
        · rcases List.mem_cons.mp hc with rfl | hc
          · rfl
          · rcases List.mem_append.mp hc with hc | hc
            · exact hn2 c hc
            · rcases List.mem_append.mp hc with hc | hc
              · exact hPWctl c hc
              · rcases List.mem_append.mp hc with hc | hc
                · exact hOQctl c hc
                · exact hOFctl c hc
  have h1 : stripCtl (q.scheme ++ ':' :: '/' :: '/' ::
      (q.netloc ++ (PW ++ (OQ ++ OF)))) =
      q.scheme ++ ':' :: '/' :: '/' :: (q.netloc ++ (PW ++ (OQ ++ OF))) :=
    stripCtl_eq_self _ hctlU
  have h2 : splitFirst ':' (q.scheme ++ ':' :: '/' :: '/' ::
      (q.netloc ++ (PW ++ (OQ ++ OF)))) =
      (q.scheme, some ('/' :: '/' :: (q.netloc ++ (PW ++ (OQ ++ OF))))) :=
    splitFirst_append ':' _ _ hcolon
  -- the authority stops at the earliest delimiter
  have hnall : ∀ x ∈ q.netloc, (!isNetlocDelim x) = true := fun x hx => by
    rw [hn1 x hx]; rfl
  have hPWshape : PW = [] ∨ ∃ t, PW = '/' :: t := by
    rw [hPWdef]
    by_cases hp : q.params = []
    · rcases hpa0 with hpa | hpa
      · left; simp [hp, hpa]
      · have hpane : q.path ≠ [] := by
          intro h0
          rw [h0] at hpa
          exact absurd hpa (by decide)
        obtain ⟨d0, u0, hd0⟩ := List.exists_cons_of_ne_nil hpane
        rw [hd0] at hpa
        simp only [List.headD_cons] at hpa
        subst hpa
        right
        exact ⟨u0, by simp [hp, hd0]⟩
    · have hpane := hpr0 hp
      rcases hpa0 with hpa | hpa
      · exact absurd hpa hpane
      · obtain ⟨d0, u0, hd0⟩ := List.exists_cons_of_ne_nil hpane
        rw [hd0] at hpa
        simp only [List.headD_cons] at hpa
        subst hpa
        right
        exact ⟨u0 ++ ';' :: q.params, by simp [hp, hd0]⟩
  have hhead : (PW ++ (OQ ++ OF)) = [] ∨
      ∃ y ys2, (PW ++ (OQ ++ OF)) = y :: ys2 ∧ (!isNetlocDelim y) = false := by
    rcases hPWshape with hpw | ⟨t, hpw⟩
    · rw [hpw, List.nil_append]
      by_cases hq : q.query = []
      · rw [hOQdef, if_pos hq, List.nil_append]
        by_cases hf : q.fragment = []
        · left; rw [hOFdef, if_pos hf]
        · right
          rw [hOFdef, if_neg hf]
          exact ⟨'#', q.fragment, rfl, by decide⟩
      · right
        rw [hOQdef, if_neg hq, List.cons_append]
        exact ⟨'?', q.query ++ OF, rfl, by decide⟩
    · right
      rw [hpw, List.cons_append]
      exact ⟨'/', t ++ (OQ ++ OF), rfl, by decide⟩
  have hns := takeWhile_append_stop (fun c => !isNetlocDelim c) q.netloc
    (PW ++ (OQ ++ OF)) hnall hhead
  -- fragment split
  have hfsp : splitFirst '#' (PW ++ (OQ ++ OF)) =
      (PW ++ OQ, if q.fragment = [] then none else some q.fragment) := by
    by_cases hf : q.fragment = []
    · rw [hOFdef, if_pos hf, List.append_nil, if_pos hf]
      exact splitFirst_not_mem '#' _ (by
        simp only [List.mem_append, not_or]
        exact ⟨hPWh, hOQh⟩)
    · rw [hOFdef, if_neg hf, if_neg hf, ← List.append_assoc]
      exact splitFirst_append '#' _ _ (by
        simp only [List.mem_append, not_or]
        exact ⟨hPWh, hOQh⟩)
  -- query split
  have hqsp : splitFirst '?' (PW ++ OQ) =
      (PW, if q.query = [] then none else some q.query) := by
    by_cases hq : q.query = []
    · rw [hOQdef, if_pos hq, List.append_nil, if_pos hq]
      exact splitFirst_not_mem '?' _ hPWq
    · rw [hOQdef, if_neg hq, if_neg hq]
      exact splitFirst_append '?' _ _ hPWq
  have hisE : q.scheme.isEmpty = false := by rw [hc0]; rfl
  have hgetF : (if q.fragment = [] then none else some q.fragment).getD [] =
      q.fragment := by
    by_cases hf : q.fragment = [] <;> simp [hf]
  have hgetQ : (if q.query = [] then none else some q.query).getD [] =
      q.query := by
    by_cases hq : q.query = [] <;> simp [hq]
  rw [hU]
  have htake : (('/' :: '/' :: (q.netloc ++ (PW ++ (OQ ++ OF)))).take 2) =
      pys "//" := rfl
  have hdrop : (('/' :: '/' :: (q.netloc ++ (PW ++ (OQ ++ OF)))).drop 2) =
      q.netloc ++ (PW ++ (OQ ++ OF)) := rfl
  simp only [urlsplit, h1, h2]
  try dsimp only
  simp only [Option.isSome_some, Option.getD_some, hisE, hs2, hs1, hs3,
    Bool.not_false, Bool.true_and, Bool.and_true, Bool.and_self, if_true,
    htake, hdrop, splitnetloc, eq_self_iff_true]
  rw [hns.1, hns.2, hfsp]
  try dsimp only
  rw [hqsp]
  try dsimp only
  rw [hgetF, hgetQ]

/-- Full round trip: `urlparse (urlunparse q) = q` for a well-formed
absolute `q` whose path carries no stray `;` and whose params (when
present) belong to a scheme in `uses_params`. -/
theorem urlparse_urlunparse (q : ParseResult)
    (hs0 : q.scheme ≠ [])
    (hs1 : q.scheme.all isSchemeChar = true)
    (hs2 : (q.scheme.headD 'a').isAlpha = true)
    (hs3 : pyLower q.scheme = q.scheme)
    (hn1 : ∀ c ∈ q.netloc, isNetlocDelim c = false)
    (hn2 : ∀ c ∈ q.netloc, isCtlChar c = false)
    (hpa0 : q.path = [] ∨ q.path.headD ' ' = '/')
    (hpa1 : ';' ∉ q.path)
    (hpa2 : '#' ∉ q.path) (hpa3 : '?' ∉ q.path)
    (hpa4 : ∀ c ∈ q.path, isCtlChar c = false)
    (hprS : q.params ≠ [] → q.scheme ∈ uses_params ∧ q.path ≠ [])
    (hpr1 : '/' ∉ q.params)
    (hpr2 : '#' ∉ q.params) (hpr3 : '?' ∉ q.params)
    (hpr4 : ∀ c ∈ q.params, isCtlChar c = false)
    (hq1 : '#' ∉ q.query)
    (hq2 : ∀ c ∈ q.query, isCtlChar c = false)
    (hf1 : ∀ c ∈ q.fragment, isCtlChar c = false)
    (hn0 : q.netloc ≠ []) :
    urlparse (urlunparse q) = q := by
  have hsp := urlsplit_roundtrip q hs0 hs1 hs2 hs3 hn1 hn2 hpa0 hpa2 hpa3
    hpa4 (fun hp => (hprS hp).2) hpr2 hpr3 hpr4 hq1 hq2 hf1 hn0
  by_cases hp : q.params = []
  · rw [if_pos hp] at hsp
    simp only [urlparse, hsp]
    have hcond : ¬(q.scheme ∈ uses_params ∧ ';' ∈ q.path) := fun hc =>
      hpa1 hc.2
    rw [if_neg hcond]
    dsimp only
    rw [← hp]
  · rw [if_neg hp] at hsp
    simp only [urlparse, hsp]
    have hcond : q.scheme ∈ uses_params ∧
        ';' ∈ q.path ++ ';' :: q.params := by
      refine ⟨(hprS hp).1, ?_⟩
      exact List.mem_append_right _ (List.mem_cons_self _ _)
    rw [if_pos hcond]
    have hpane := (hprS hp).2
    rcases hpa0 with hpa | hpa
    · exact absurd hpa hpane
    obtain ⟨d0, u0, hd0⟩ := List.exists_cons_of_ne_nil hpane
    rw [hd0] at hpa
    simp only [List.headD_cons] at hpa
    subst hpa
    cases hr : rsplitLast '/' q.path with
    | none =>
      exfalso
      have := rsplitLast_eq_none '/' q.path hr
      rw [hd0] at this
      exact this (List.mem_cons_self _ _)
    | some bs =>
      obtain ⟨hdec, hnmem⟩ := rsplitLast_eq_some_spec '/' q.path bs.1 bs.2
        (by rw [hr])
      have hsub : ∀ x ∈ bs.2, x ∈ q.path := by
        intro x hx
        rw [hdec]
        simp only [List.mem_append, List.mem_cons]
        exact Or.inr (Or.inr hx)
      have hsegsemi : ';' ∉ bs.2 := fun hx => hpa1 (hsub ';' hx)
      have hshape : q.path ++ ';' :: q.params =
          bs.1 ++ '/' :: (bs.2 ++ ';' :: q.params) := by
        rw [hdec]
        simp [List.append_assoc]
      have hr2 : rsplitLast '/' (q.path ++ ';' :: q.params) =
          some (bs.1, bs.2 ++ ';' :: q.params) := by
        rw [hshape]
        refine rsplitLast_append '/' _ _ ?_
        simp only [List.mem_append, List.mem_cons, not_or]
        exact ⟨hnmem, by decide, hpr1⟩
      have hsem : splitFirst ';' (bs.2 ++ ';' :: q.params) =
          (bs.2, some q.params) := splitFirst_append ';' _ _ hsegsemi
      simp only [splitparams, hr2, hsem]
      rw [← hdec]

/-- The hostname of the proxied netloc: replacing dots by dashes in a
well-formed netloc and appending the proxy suffix maps the hostname
through the same replacement followed by the suffix. -/
theorem pyHostname_proxy (nl hsm : PyStr)
    (hn : ∀ c ∈ nl, netlocOkChar c = true)
    (hh : pyHostname nl = some hsm) :
    pyHostname (replaceChar '.' '-' nl ++ hkuSuffix) =
      some (replaceChar '.' '-' hsm ++ hkuSuffix) := by
  have hnh : ∀ c ∈ afterLastChar '@' nl, netlocOkChar c = true := fun c hc =>
    hn c (afterLastChar_subset '@' nl c hc)
  have htw : (afterLastChar '@' nl).takeWhile (fun c => !(c == ':')) =
      afterLastChar '@' nl :=
    takeWhile_all _ _ (fun x hx => by
      simp [(netlocOk_spec (hnh x hx)).1])
  have hpc : '%' ∉ afterLastChar '@' nl := fun hx =>
    (netlocOk_spec (hnh '%' hx)).2.2.2 rfl
  simp only [pyHostname, htw] at hh
  by_cases hhe : afterLastChar '@' nl = []
  · rw [if_pos hhe] at hh
    exact absurd hh (by simp)
  rw [if_neg hhe, splitFirst_not_mem '%' _ hpc] at hh
  simp only [Option.isSome_none, Bool.false_eq_true, if_false,
    Option.some.injEq] at hh
  -- the proxied authority and its host part
  have hali : afterLastChar '@' (replaceChar '.' '-' nl ++ hkuSuffix) =
      replaceChar '.' '-' (afterLastChar '@' nl) ++ hkuSuffix := by
    cases hr : rsplitLast '@' nl with
    | some bs =>
      obtain ⟨hdec, hnm⟩ := rsplitLast_eq_some_spec '@' nl bs.1 bs.2
        (by rw [hr])
      have hafter1 : afterLastChar '@' nl = bs.2 := by rw [afterLastChar, hr]
      have hshape : replaceChar '.' '-' nl ++ hkuSuffix =
          replaceChar '.' '-' bs.1 ++
            '@' :: (replaceChar '.' '-' bs.2 ++ hkuSuffix) := by
        rw [hdec, replaceChar_append]
        simp [replaceChar]
      have hnm2 : '@' ∉ replaceChar '.' '-' bs.2 ++ hkuSuffix := by
        simp only [List.mem_append, not_or]
        exact ⟨not_mem_replaceChar (by decide) hnm, by decide⟩
      rw [afterLastChar, hshape, rsplitLast_append '@' _ _ hnm2, hafter1]
    | none =>
      have hnm := rsplitLast_eq_none '@' nl hr
      have hafter1 : afterLastChar '@' nl = nl := by rw [afterLastChar, hr]
      have hnm2 : '@' ∉ replaceChar '.' '-' nl ++ hkuSuffix := by
        simp only [List.mem_append, not_or]
        exact ⟨not_mem_replaceChar (by decide) hnm, by decide⟩
      rw [afterLastChar, rsplitLast_not_mem '@' _ hnm2, hafter1]
  have hsuf : ∀ c ∈ hkuSuffix, netlocOkChar c = true := by decide
  have hh2 : ∀ c ∈ replaceChar '.' '-' (afterLastChar '@' nl) ++ hkuSuffix,
      netlocOkChar c = true := by
    intro c hc
    rcases List.mem_append.mp hc with hc | hc
    · exact replaceChar_pointwise (by decide) hnh c hc
    · exact hsuf c hc
  have htw2 : (replaceChar '.' '-' (afterLastChar '@' nl) ++
      hkuSuffix).takeWhile (fun c => !(c == ':')) =
      replaceChar '.' '-' (afterLastChar '@' nl) ++ hkuSuffix :=
    takeWhile_all _ _ (fun x hx => by
      simp [(netlocOk_spec (hh2 x hx)).1])
  have hne2 : replaceChar '.' '-' (afterLastChar '@' nl) ++ hkuSuffix ≠ [] := by
    intro h0
    rcases List.append_eq_nil.mp h0 with ⟨_, h2⟩
    exact absurd h2 (by decide)
  have hpc2 : '%' ∉ replaceChar '.' '-' (afterLastChar '@' nl) ++
      hkuSuffix := fun hx => (netlocOk_spec (hh2 '%' hx)).2.2.2 rfl
  simp only [pyHostname, hali, htw2, if_neg hne2,
    splitFirst_not_mem '%' _ hpc2, Option.isSome_none, Bool.false_eq_true,
    if_false, Option.some.injEq]
  rw [pyLower_append, pyLower_replaceChar_dot, hh]
  have hlow : pyLower hkuSuffix = hkuSuffix := by decide
  rw [hlow]

/-! ## C2: the proxy rewriter -/

/-- C2 counterexample.  `convert_to_hku_proxy` rewrites the whole
authority, not the hostname: for an absolute URL with an explicit port,
whose hostname is `pubs.acs.org`, the output's hostname is
`pubs-acs-org` — the port swallows the appended suffix — and not
`pubs-acs-org.eproxy.lib.hku.hk` as the claim requires. -/
theorem C2_counterexample :
    pyHostname (urlparse (pys "https://pubs.acs.org:443/doi/x")).netloc =
      some (pys "pubs.acs.org") ∧
    pyHostname (urlparse (convert_to_hku_proxy
        (pys "https://pubs.acs.org:443/doi/x"))).netloc =
      some (pys "pubs-acs-org") ∧
    pyHostname (urlparse (convert_to_hku_proxy
        (pys "https://pubs.acs.org:443/doi/x"))).netloc ≠
      some (replaceChar '.' '-' (pys "pubs.acs.org") ++ hkuSuffix) := by
  refine ⟨by decide, by decide, by decide⟩

/-- C2 amended.  For every absolute URL whose authority is exactly a
(userinfo-optional) hostname — no port, no brackets — the rewriter is a
pure total function whose output parses back to the same scheme, path,
params, query and fragment, with the authority's dots replaced by
dashes and the fixed suffix `.eproxy.lib.hku.hk` appended; the output's
hostname is the input hostname with every `.` replaced by `-` followed
by the suffix. -/
theorem C2_proxy_rewriter (url : PyStr) (p : ParseResult) (h : PyStr)
    (hp : urlparse url = p)
    (hs0 : p.scheme ≠ []) (hs1 : p.scheme.all isSchemeChar = true)
    (hs2 : (p.scheme.headD 'a').isAlpha = true)
    (hs3 : pyLower p.scheme = p.scheme)
    (hn : ∀ c ∈ p.netloc, netlocOkChar c = true)
    (hh : pyHostname p.netloc = some h)
    (hpa0 : p.path = [] ∨ p.path.headD ' ' = '/')
    (hpa1 : ';' ∉ p.path) (hpa2 : '#' ∉ p.path) (hpa3 : '?' ∉ p.path)
    (hpa4 : ∀ c ∈ p.path, isCtlChar c = false)
    (hpr0 : p.params ≠ [] → p.scheme ∈ uses_params ∧ p.path ≠ [])
    (hpr1 : '/' ∉ p.params) (hpr2 : '#' ∉ p.params) (hpr3 : '?' ∉ p.params)
    (hpr4 : ∀ c ∈ p.params, isCtlChar c = false)
    (hq1 : '#' ∉ p.query) (hq2 : ∀ c ∈ p.query, isCtlChar c = false)
    (hf1 : ∀ c ∈ p.fragment, isCtlChar c = false) :
    urlparse (convert_to_hku_proxy url) =
      ⟨p.scheme, replaceChar '.' '-' p.netloc ++ hkuSuffix, p.path, p.params,
       p.query, p.fragment⟩ ∧
    pyHostname (urlparse (convert_to_hku_proxy url)).netloc =
      some (replaceChar '.' '-' h ++ hkuSuffix) := by
  have hcv : convert_to_hku_proxy url =
      urlunparse ⟨p.scheme, replaceChar '.' '-' p.netloc ++ hkuSuffix, p.path,
        p.params, p.query, p.fragment⟩ := by
    simp only [convert_to_hku_proxy, hp]
  have hsuf : ∀ c ∈ hkuSuffix, netlocOkChar c = true := by decide
  have hn1' : ∀ c ∈ replaceChar '.' '-' p.netloc ++ hkuSuffix,
      isNetlocDelim c = false := by
    intro c hc
    rcases List.mem_append.mp hc with hc | hc
    · exact replaceChar_pointwise (by decide)
        (fun x hx => (netlocOk_spec (hn x hx)).2.1) c hc
    · exact (netlocOk_spec (hsuf c hc)).2.1
  have hn2' : ∀ c ∈ replaceChar '.' '-' p.netloc ++ hkuSuffix,
      isCtlChar c = false := by
    intro c hc
    rcases List.mem_append.mp hc with hc | hc
    · exact replaceChar_pointwise (by decide)
        (fun x hx => (netlocOk_spec (hn x hx)).2.2.1) c hc
    · exact (netlocOk_spec (hsuf c hc)).2.2.1
  have hn0' : replaceChar '.' '-' p.netloc ++ hkuSuffix ≠ [] := by
    intro h0
    rcases List.append_eq_nil.mp h0 with ⟨_, h2⟩
    exact absurd h2 (by decide)
  have hrt := urlparse_urlunparse
    ⟨p.scheme, replaceChar '.' '-' p.netloc ++ hkuSuffix, p.path, p.params,
     p.query, p.fragment⟩
    hs0 hs1 hs2 hs3 hn1' hn2' hpa0 hpa1 hpa2 hpa3 hpa4 hpr0 hpr1 hpr2 hpr3
    hpr4 hq1 hq2 hf1 hn0'
  rw [hcv, hrt]
  exact ⟨rfl, pyHostname_proxy p.netloc h hn hh⟩

/-- Witness for the amended C2 at the repository's own example URL. -/
theorem C2_witness :
    urlparse (convert_to_hku_proxy
        (pys "https://pubs.acs.org/doi/10.1021/acscatal.9b05338")) =
      ⟨pys "https", replaceChar '.' '-' (pys "pubs.acs.org") ++ hkuSuffix,
       pys "/doi/10.1021/acscatal.9b05338", [], [], []⟩ ∧
    pyHostname (urlparse (convert_to_hku_proxy
        (pys "https://pubs.acs.org/doi/10.1021/acscatal.9b05338"))).netloc =
      some (replaceChar '.' '-' (pys "pubs.acs.org") ++ hkuSuffix) :=
  C2_proxy_rewriter
    (pys "https://pubs.acs.org/doi/10.1021/acscatal.9b05338")
    ⟨pys "https", pys "pubs.acs.org", pys "/doi/10.1021/acscatal.9b05338",
     [], [], []⟩
    (pys "pubs.acs.org")
    (by decide) (by decide) (by decide) (by decide) (by decide) (by decide)
    (by decide) (by decide) (by decide) (by decide) (by decide) (by decide)
    (by decide) (by decide) (by decide) (by decide) (by decide) (by decide)
    (by decide) (by decide)

/-! ## C3: publisher classification -/

/-- C3 counterexample.  The lookup key is the authority (netloc), not
the hostname: a final URL with an explicit port has hostname
`pubs.acs.org`, which the table maps to `"ACS"`, yet `doi_to_url`
returns `"Unknown"`. -/
theorem C3_counterexample :
    pyHostname (urlparse (pys "https://pubs.acs.org:443/doi/x")).netloc =
      some (pys "pubs.acs.org") ∧
    lookupPub (pys "pubs.acs.org") = "ACS" ∧
    (doi_to_url (fun _ => .success (pys "https://pubs.acs.org:443/doi/x"))
        "10.1021/x").2 = "Unknown" :=
  ⟨by decide, by decide, by decide⟩

/-- C3 amended.  For every resolved final URL (from a success or from a
tolerated HTTP error with a response), the publisher label is an
exact-match lookup of the final URL's netloc — its authority component,
verbatim — against the static nine-entry table; unmatched netlocs yield
`"Unknown"`.  For URLs whose netloc is exactly the hostname, this gives
`"ACS"` for `pubs.acs.org` and `"Unknown"` for `example.com`. -/
theorem C3_publisher_by_netloc :
    (∀ net doi u, net (resolver_url doi) = .success u →
      doi_to_url net doi = (u, lookupPub (urlparse u).netloc)) ∧
    (∀ net doi u e, net (resolver_url doi) = .httpErr (some u) e →
      doi_to_url net doi = (u, lookupPub (urlparse u).netloc)) ∧
    publisher_map.length = 9 ∧
    lookupPub (pys "pubs.acs.org") = "ACS" ∧
    lookupPub (pys "example.com") = "Unknown" ∧
    (∀ d, (∀ kv ∈ publisher_map, kv.1 ≠ d) → lookupPub d = "Unknown") := by
  refine ⟨fun net doi u h => by simp [doi_to_url, h],
          fun net doi u e h => by simp [doi_to_url, h],
          rfl, by decide, by decide, fun d h => ?_⟩
  have hf : publisher_map.find? (fun kv => kv.1 == d) = none := by
    rw [List.find?_eq_none]
    intro kv hkv
    simpa using h kv hkv
  simp [lookupPub, hf]

/-- Witness for the amended C3 at a concrete oracle. -/
theorem C3_witness :
    doi_to_url netACS "10.1021/acscatal.9b05338" =
      (pys "https://pubs.acs.org/doi/10.1021/acscatal.9b05338",
       lookupPub
         (urlparse (pys "https://pubs.acs.org/doi/10.1021/acscatal.9b05338")).netloc) ∧
    (doi_to_url netACS "10.1021/acscatal.9b05338").2 = "ACS" ∧
    (doi_to_url netOther "10.1021/x").2 = "Unknown" :=
  ⟨C3_publisher_by_netloc.1 netACS "10.1021/acscatal.9b05338" _ rfl,
   by decide, by decide⟩

/-! ## C5: a resolve failure stops the DOI before any navigation -/

/-- C5.  When the resolution result carries the error marker, the loop
body records status `resolve_failed` with an empty actions sequence and
causes no browser events at all — in particular no navigation. -/
theorem C5_resolve_failed (env : Env) (first : Bool) (doi : String)
    (h : (pys "Error").isPrefixOf (doi_to_url env.net doi).1 = true) :
    (processOne env first doi).1.status = "resolve_failed" ∧
    (processOne env first doi).1.actions = [] ∧
    (processOne env first doi).2.1 = [] ∧
    ∀ u b, Event.navigate u b ∉ (processOne env first doi).2.1 := by
  simp [processOne, h]

/-- Witness for C5: a transport failure on a concrete environment. -/
theorem C5_witness :
    (processOne envDown true "10.1021/x").1.status = "resolve_failed" ∧
    (processOne envDown true "10.1021/x").1.actions = [] ∧
    (processOne envDown true "10.1021/x").2.1 = [] ∧
    ∀ u b, Event.navigate u b ∉ (processOne envDown true "10.1021/x").2.1 :=
  C5_resolve_failed envDown true "10.1021/x" (by decide)

/-! ## C6: the proxy selector -/

/-- C6.  The proxy dispatch is total over the accepted parameter forms:
`None` and `'hku'` use the HKU rewriter, `'none'` passes the resolved
URL through, a callable is applied to the URL, any other string falls
back to the HKU rewriter; a raising callable yields status
`proxy_error` with the captured error and no browser events. -/
theorem C6_proxy_dispatch (env : Env) (first : Bool) (doi : String)
    (hres : (pys "Error").isPrefixOf (doi_to_url env.net doi).1 = false) :
    (env.proxy = .pyNone →
      (processOne env first doi).1.proxied_url =
        some (convert_to_hku_proxy (doi_to_url env.net doi).1)) ∧
    (env.proxy = .str "hku" →
      (processOne env first doi).1.proxied_url =
        some (convert_to_hku_proxy (doi_to_url env.net doi).1)) ∧
    (env.proxy = .str "none" →
      (processOne env first doi).1.proxied_url =
        some (doi_to_url env.net doi).1) ∧
    (∀ s, env.proxy = .str s → s ≠ "hku" → s ≠ "none" →
      (processOne env first doi).1.proxied_url =
        some (convert_to_hku_proxy (doi_to_url env.net doi).1)) ∧
    (∀ f u, env.proxy = .func f →
      f (doi_to_url env.net doi).1 = .ok u →
      (processOne env first doi).1.proxied_url = some u) ∧
    (∀ f e, env.proxy = .func f →
      f (doi_to_url env.net doi).1 = .error e →
      (processOne env first doi).1.status = "proxy_error" ∧
      (processOne env first doi).1.error =
        some (pys "proxy function error: " ++ e) ∧
      (processOne env first doi).1.actions = [] ∧
      (processOne env first doi).2.1 = []) := by
  have hok : ∀ proxied, applyProxy env.proxy (doi_to_url env.net doi).1 = .ok proxied →
      (processOne env first doi).1.proxied_url = some proxied := by
    intro proxied hp
    cases hnav : env.driver.nav proxied with
    | some e => rw [po_nav_err env first doi proxied e hres hp hnav]
    | none =>
      by_cases hpub : (doi_to_url env.net doi).2 = "ACS"
      · cases hfind : env.driver.find proxied pdfClass with
        | error e => rw [po_acs_find_err env first doi proxied e hres hp hnav hpub hfind]
        | ok u =>
          cases hclick : env.driver.click proxied pdfClass with
          | some e => rw [po_acs_click_err env first doi proxied e hres hp hnav hpub hfind hclick]
          | none => rw [po_acs_ok env first doi proxied hres hp hnav hpub hfind hclick]
      · rw [po_no_action env first doi proxied hres hp hnav hpub]
  refine ⟨fun h => hok _ (by simp [applyProxy, h]),
          fun h => hok _ (by simp [applyProxy, h]),
          fun h => hok _ (by simp [applyProxy, h]),
          fun s h h1 h2 => hok _ (by simp [applyProxy, h, h1, h2]),
          fun f u h hf => hok _ (by simp [applyProxy, h, hf]),
          fun f e h hf => ?_⟩
  rw [po_proxy_err env first doi e hres (by simp [applyProxy, h, hf])]
  simp

/-- Witness for C6, exercising every dispatch arm on concrete
environments. -/
theorem C6_witness :
    (processOne (envWith .pyNone) true "d").1.proxied_url =
      some (convert_to_hku_proxy (doi_to_url (envWith .pyNone).net "d").1) ∧
    (processOne (envWith (.str "hku")) true "d").1.proxied_url =
      some (convert_to_hku_proxy (doi_to_url (envWith (.str "hku")).net "d").1) ∧
    (processOne (envWith (.str "none")) true "d").1.proxied_url =
      some (doi_to_url (envWith (.str "none")).net "d").1 ∧
    (processOne (envWith (.str "weird")) true "d").1.proxied_url =
      some (convert_to_hku_proxy (doi_to_url (envWith (.str "weird")).net "d").1) ∧
    (processOne (envWith proxyFnBad) true "d").1.status = "proxy_error" ∧
    (processOne (envWith proxyFnBad) true "d").1.error =
      some (pys "proxy function error: " ++ pys "boom") ∧
    (processOne (envWith proxyFnBad) true "d").2.1 = [] :=
  have h1 := C6_proxy_dispatch (envWith .pyNone) true "d" (by decide)
  have h2 := C6_proxy_dispatch (envWith (.str "hku")) true "d" (by decide)
  have h3 := C6_proxy_dispatch (envWith (.str "none")) true "d" (by decide)
  have h4 := C6_proxy_dispatch (envWith (.str "weird")) true "d" (by decide)
  have h5 := C6_proxy_dispatch (envWith proxyFnBad) true "d" (by decide)
  have h5e := h5.2.2.2.2.2 (fun _ => .error (pys "boom")) (pys "boom") rfl rfl
  ⟨h1.1 rfl, h2.2.1 rfl, h3.2.2.1 rfl,
   h4.2.2.2.1 "weird" rfl (by decide) (by decide),
   h5e.1, h5e.2.1, h5e.2.2.2⟩

/-! ## C8: publisher-keyed UI action -/

/-- C8.  After a successful navigation, publisher `"ACS"` triggers an
element lookup by the fixed CSS class name and a click: on success the
record has status `pdf_clicked` and actions `["clicked_pdf_button"]`;
if the lookup or the click raises, the status is `click_pdf_failed`
and the exception's message (non-empty for every exception the browser
library raises) is captured in the error field.  Every other publisher
label causes no UI action and status `no_action_for_publisher`. -/
theorem C8_publisher_action (env : Env) (first : Bool) (doi : String)
    (proxied : PyStr)
    (hres : (pys "Error").isPrefixOf (doi_to_url env.net doi).1 = false)
    (hp : applyProxy env.proxy (doi_to_url env.net doi).1 = .ok proxied)
    (hnav : env.driver.nav proxied = none) :
    ((doi_to_url env.net doi).2 = "ACS" →
      Event.findElement pdfClass ∈ (processOne env first doi).2.1 ∧
      (env.driver.find proxied pdfClass = .ok () →
       env.driver.click proxied pdfClass = none →
        (processOne env first doi).1.status = "pdf_clicked" ∧
        (processOne env first doi).1.actions = ["clicked_pdf_button"]) ∧
      (∀ e, e ≠ [] → env.driver.find proxied pdfClass = .error e →
        (processOne env first doi).1.status = "click_pdf_failed" ∧
        (processOne env first doi).1.error = some e ∧ e ≠ []) ∧
      (∀ e, e ≠ [] → env.driver.find proxied pdfClass = .ok () →
       env.driver.click proxied pdfClass = some e →
        (processOne env first doi).1.status = "click_pdf_failed" ∧
        (processOne env first doi).1.error = some e ∧ e ≠ [])) ∧
    ((doi_to_url env.net doi).2 ≠ "ACS" →
      (processOne env first doi).1.status = "no_action_for_publisher" ∧
      (processOne env first doi).1.actions = [] ∧
      Event.findElement pdfClass ∉ (processOne env first doi).2.1 ∧
      Event.clickElement ∉ (processOne env first doi).2.1) := by
  constructor
  · intro hpub
    refine ⟨?_, fun hfind hclick => ?_, fun e he hfind => ?_, fun e he hfind hclick => ?_⟩
    · cases hfind : env.driver.find proxied pdfClass with
      | error e =>
        rw [po_acs_find_err env first doi proxied e hres hp hnav hpub hfind]
        cases first <;> simp
      | ok u =>
        cases hclick : env.driver.click proxied pdfClass with
        | some e =>
          rw [po_acs_click_err env first doi proxied e hres hp hnav hpub hfind hclick]
          cases first <;> simp
        | none =>
          rw [po_acs_ok env first doi proxied hres hp hnav hpub hfind hclick]
          cases first <;> simp
    · rw [po_acs_ok env first doi proxied hres hp hnav hpub hfind hclick]
      exact ⟨rfl, rfl⟩
    · rw [po_acs_find_err env first doi proxied e hres hp hnav hpub hfind]
      exact ⟨rfl, rfl, he⟩
    · rw [po_acs_click_err env first doi proxied e hres hp hnav hpub hfind hclick]
      exact ⟨rfl, rfl, he⟩
  · intro hpub
    rw [po_no_action env first doi proxied hres hp hnav hpub]
    cases first <;> simp

/-- Witness for C8: success, lookup failure and non-ACS cases on
concrete environments. -/
theorem C8_witness :
    ((processOne envACS true "d").1.status = "pdf_clicked" ∧
     (processOne envACS true "d").1.actions = ["clicked_pdf_button"]) ∧
    ((processOne envFindFail true "d").1.status = "click_pdf_failed" ∧
     (processOne envFindFail true "d").1.error = some (pys "no such element") ∧
     pys "no such element" ≠ []) ∧
    ((processOne envClickFail true "d").1.status = "click_pdf_failed" ∧
     (processOne envClickFail true "d").1.error = some (pys "not interactable") ∧
     pys "not interactable" ≠ []) ∧
    ((processOne envOther true "d").1.status = "no_action_for_publisher" ∧
     (processOne envOther true "d").1.actions = [] ∧
     Event.findElement pdfClass ∉ (processOne envOther true "d").2.1 ∧
     Event.clickElement ∉ (processOne envOther true "d").2.1) :=
  have h1 := C8_publisher_action envACS true "d"
    (convert_to_hku_proxy (doi_to_url envACS.net "d").1) (by decide)
    (by simp [envACS, applyProxy]) rfl
  have h2 := C8_publisher_action envFindFail true "d"
    (convert_to_hku_proxy (doi_to_url envFindFail.net "d").1) (by decide)
    (by simp [envFindFail, applyProxy]) rfl
  have h3 := C8_publisher_action envClickFail true "d"
    (convert_to_hku_proxy (doi_to_url envClickFail.net "d").1) (by decide)
    (by simp [envClickFail, applyProxy]) rfl
  have h4 := C8_publisher_action envOther true "d"
    (convert_to_hku_proxy (doi_to_url envOther.net "d").1) (by decide)
    (by simp [envOther, applyProxy]) rfl
  ⟨(h1.1 (by decide)).2.1 rfl rfl,
   (h2.1 (by decide)).2.2.1 (pys "no such element") (by decide) rfl,
   (h3.1 (by decide)).2.2.2 (pys "not interactable") (by decide) rfl rfl,
   h4.2 (by decide)⟩

/-! ## C1: the batch is total and produces one record per DOI -/

theorem dictInsert_keys_mem (k : String) (v : Record) (l : List (String × Record))
    (dd : String) :
    dd ∈ (dictInsert k v l).map Prod.fst ↔ dd = k ∨ dd ∈ l.map Prod.fst := by
  induction l with
  | nil => simp [dictInsert]
  | cons kv rest ih =>
    by_cases h : kv.1 = k
    · subst h; simp [dictInsert]
    · simp only [dictInsert, if_neg h, List.map_cons, List.mem_cons, ih]
      tauto

theorem dictInsert_keys_nodup (k : String) (v : Record) (l : List (String × Record))
    (h : (l.map Prod.fst).Nodup) : ((dictInsert k v l).map Prod.fst).Nodup := by
  induction l with
  | nil => simp [dictInsert]
  | cons kv rest ih =>
    simp only [List.map_cons, List.nodup_cons] at h
    by_cases hk : kv.1 = k
    · subst hk; simpa [dictInsert] using h
    · simp only [dictInsert, if_neg hk, List.map_cons, List.nodup_cons]
      refine ⟨fun hc => ?_, ih h.2⟩
      rcases (dictInsert_keys_mem k v rest kv.1).mp hc with h1 | h1
      · exact hk h1
      · exact h.1 h1

theorem dictInsert_mem (k : String) (v : Record) (l : List (String × Record))
    (kv : String × Record) (h : kv ∈ dictInsert k v l) : kv = (k, v) ∨ kv ∈ l := by
  induction l with
  | nil => simpa [dictInsert] using h
  | cons kv2 rest ih =>
    by_cases hk : kv2.1 = k
    · rw [dictInsert, if_pos hk] at h
      rcases List.mem_cons.mp h with h1 | h1
      · exact Or.inl h1
      · exact Or.inr (List.mem_cons_of_mem _ h1)
    · rw [dictInsert, if_neg hk] at h
      rcases List.mem_cons.mp h with h1 | h1
      · exact Or.inr (h1 ▸ List.mem_cons_self _ _)
      · rcases ih h1 with h2 | h2
        · exact Or.inl h2
        · exact Or.inr (List.mem_cons_of_mem _ h2)

/-- Every record the loop body produces is finished: it names its DOI
and carries one of the six statuses. -/
theorem processOne_finished (env : Env) (first : Bool) (doi : String) :
    (processOne env first doi).1.doi = doi ∧
    (processOne env first doi).1.status ∈ statusVocab := by
  simp only [processOne]
  repeat' split
  all_goals refine ⟨rfl, ?_⟩
  all_goals simp [statusVocab]

theorem processLoop_invariants (env : Env) (l : List String) :
    ∀ (first : Bool) (res : List (String × Record)) (tr : List Event),
    (res.map Prod.fst).Nodup →
    (∀ kv ∈ res, kv.2.doi = kv.1 ∧ kv.2.status ∈ statusVocab) →
    (((processLoop env first res tr l).1.map Prod.fst).Nodup ∧
     (∀ dd, dd ∈ (processLoop env first res tr l).1.map Prod.fst ↔
        dd ∈ res.map Prod.fst ∨ dd ∈ l) ∧
     (∀ kv ∈ (processLoop env first res tr l).1,
        kv.2.doi = kv.1 ∧ kv.2.status ∈ statusVocab)) := by
  induction l with
  | nil =>
    intro first res tr hnd hrec
    refine ⟨hnd, fun dd => by simp [processLoop], hrec⟩
  | cons doi rest ih =>
    intro first res tr hnd hrec
    have hnd2 := dictInsert_keys_nodup doi (processOne env first doi).1 res hnd
    have hrec2 : ∀ kv ∈ dictInsert doi (processOne env first doi).1 res,
        kv.2.doi = kv.1 ∧ kv.2.status ∈ statusVocab := by
      intro kv hkv
      rcases dictInsert_mem _ _ _ _ hkv with h1 | h1
      · subst h1; exact processOne_finished env first doi
      · exact hrec kv h1
    have hmain := ih (processOne env first doi).2.2
      (dictInsert doi (processOne env first doi).1 res)
      (tr ++ (processOne env first doi).2.1) hnd2 hrec2
    have hstep : processLoop env first res tr (doi :: rest) =
        processLoop env (processOne env first doi).2.2
          (dictInsert doi (processOne env first doi).1 res)
          (tr ++ (processOne env first doi).2.1) rest := rfl
    rw [hstep]
    refine ⟨hmain.1, fun dd => ?_, hmain.2.2⟩
    rw [hmain.2.1 dd, dictInsert_keys_mem]
    simp only [List.mem_cons]
    tauto

/-- C1.  `process_dois` is a total function of its inputs: it returns a
mapping whose keys are exactly the processed DOIs, without duplicates,
and every stored record is finished — it names its DOI and carries one
of the six failure-capturing statuses, so no per-DOI failure escapes to
the caller. -/
theorem C1_batch_total (env : Env) (dois : List String) :
    (((process_dois env dois).1.map Prod.fst).Nodup) ∧
    (∀ dd, dd ∈ (process_dois env dois).1.map Prod.fst ↔ dd ∈ dois) ∧
    (∀ kv ∈ (process_dois env dois).1,
      kv.2.doi = kv.1 ∧ kv.2.status ∈ statusVocab) := by
  have h := processLoop_invariants env dois true [] [] (by simp) (by simp)
  exact ⟨h.1, fun dd => by simpa using h.2.1 dd, h.2.2⟩

/-- Witness for C1 on a concrete batch (with a duplicate DOI and a
failing resolution in the mix). -/
theorem C1_witness :
    (((process_dois envDown ["a", "b", "a"]).1.map Prod.fst).Nodup) ∧
    ((process_dois envDown ["a", "b", "a"]).1.map Prod.fst = ["a", "b"]) ∧
    (∀ kv ∈ (process_dois envDown ["a", "b", "a"]).1,
      kv.2.doi = kv.1 ∧ kv.2.status ∈ statusVocab) :=
  ⟨(C1_batch_total envDown ["a", "b", "a"]).1, by decide,
   (C1_batch_total envDown ["a", "b", "a"]).2.2⟩

/-! ## C7: the 20-second authentication pause -/

/-- The three possible shapes of one loop iteration's trace: no browser
call at all (flag unchanged), a failed navigation (flag unchanged), or
a successful navigation followed immediately by the pause or the
page-load wait, then only benign events (flag cleared). -/
theorem processOne_trace_shape (env : Env) (first : Bool) (doi : String) :
    ((processOne env first doi).2.1 = [] ∧
     (processOne env first doi).2.2 = first) ∨
    (∃ u, (processOne env first doi).2.1 = [Event.navigate u false] ∧
      (processOne env first doi).2.2 = first) ∨
    (∃ u tail, (processOne env first doi).2.1 =
        Event.navigate u true ::
          (if first then Event.sleep 20 else Event.waitLoad env.wait_time) ::
          tail ∧
      (processOne env first doi).2.2 = false ∧ tail.all benignEvent = true) := by
  cases first <;>
    (simp only [processOne]
     repeat' split
     all_goals first
       | exact Or.inl ⟨rfl, rfl⟩
       | exact Or.inr (Or.inl ⟨_, rfl, rfl⟩)
       | exact Or.inr (Or.inr ⟨_, _, rfl, rfl, rfl⟩))

theorem pauseDiscipline_nav_false (w : Nat) (first : Bool) (u : PyStr)
    (T : List Event) :
    pauseDiscipline w first (Event.navigate u false :: T) =
      pauseDiscipline w first T := by
  cases first <;> simp [pauseDiscipline]

theorem pauseDiscipline_benign_append (w : Nat) (tail : List Event)
    (hb : tail.all benignEvent = true) :
    ∀ (first : Bool) (T : List Event),
      pauseDiscipline w first (tail ++ T) = pauseDiscipline w first T := by
  induction tail with
  | nil => intro first T; rfl
  | cons e rest ih =>
    intro first T
    simp only [List.all_cons, Bool.and_eq_true] at hb
    cases e with
    | navigate u ok => simp [benignEvent] at hb
    | sleep n =>
      have hn : decide (n ≠ 20) = true := by simpa [benignEvent] using hb.1
      cases first <;> simp [pauseDiscipline, hn, ih hb.2]
    | waitLoad t => cases first <;> simp [pauseDiscipline, ih hb.2]
    | findElement c => cases first <;> simp [pauseDiscipline, ih hb.2]
    | clickElement => cases first <;> simp [pauseDiscipline, ih hb.2]

theorem countSleep20_benign (tail : List Event)
    (hb : tail.all benignEvent = true) : countSleep20 tail = 0 := by
  induction tail with
  | nil => rfl
  | cons e rest ih =>
    simp only [List.all_cons, Bool.and_eq_true] at hb
    have h2 := ih hb.2
    cases e with
    | navigate u ok => simp [countSleep20, List.countP_cons] at h2 ⊢; exact h2
    | sleep n =>
      have hn : n ≠ 20 := by simpa [benignEvent] using hb.1
      simp [countSleep20, List.countP_cons, hn] at h2 ⊢; exact h2
    | waitLoad t => simp [countSleep20, List.countP_cons] at h2 ⊢; exact h2
    | findElement c => simp [countSleep20, List.countP_cons] at h2 ⊢; exact h2
    | clickElement => simp [countSleep20, List.countP_cons] at h2 ⊢; exact h2

theorem processLoop_trace_shift (env : Env) (l : List String) :
    ∀ (first : Bool) (res : List (String × Record)) (tr : List Event),
      (processLoop env first res tr l).2 =
        tr ++ (processLoop env first res [] l).2 := by
  induction l with
  | nil => intro first res tr; simp [processLoop]
  | cons doi rest ih =>
    intro first res tr
    have h1 : (processLoop env first res tr (doi :: rest)).2 =
        (processLoop env (processOne env first doi).2.2
          (dictInsert doi (processOne env first doi).1 res)
          (tr ++ (processOne env first doi).2.1) rest).2 := rfl
    have h2 : (processLoop env first res [] (doi :: rest)).2 =
        (processLoop env (processOne env first doi).2.2
          (dictInsert doi (processOne env first doi).1 res)
          ((processOne env first doi).2.1) rest).2 := rfl
    rw [h1, h2, ih, ih _ _ ((processOne env first doi).2.1), List.append_assoc]

theorem processLoop_pause (env : Env) (l : List String) :
    ∀ (first : Bool) (res : List (String × Record)),
      pauseDiscipline env.wait_time first
        ((processLoop env first res [] l).2) = true := by
  induction l with
  | nil => intro first res; cases first <;> rfl
  | cons doi rest ih =>
    intro first res
    have h2 : (processLoop env first res [] (doi :: rest)).2 =
        (processOne env first doi).2.1 ++
        (processLoop env (processOne env first doi).2.2
          (dictInsert doi (processOne env first doi).1 res) [] rest).2 := by
      have h0 : (processLoop env first res [] (doi :: rest)).2 =
          (processLoop env (processOne env first doi).2.2
            (dictInsert doi (processOne env first doi).1 res)
            ((processOne env first doi).2.1) rest).2 := rfl
      rw [h0, processLoop_trace_shift]
    rw [h2]
    rcases processOne_trace_shape env first doi with ⟨he, hf⟩ | ⟨u, he, hf⟩ |
      ⟨u, tail, he, hf, hb⟩
    · rw [he, hf]; exact ih first _
    · rw [he, hf]
      simpa [pauseDiscipline_nav_false] using ih first _
    · rw [he, hf]
      cases first with
      | true =>
        show pauseDiscipline env.wait_time true
          (Event.navigate u true :: Event.sleep 20 :: (tail ++ _)) = true
        rw [pauseDiscipline, pauseDiscipline_benign_append _ _ hb]
        exact ih false _
      | false =>
        show pauseDiscipline env.wait_time false
          (Event.navigate u true :: Event.waitLoad env.wait_time :: (tail ++ _)) = true
        rw [pauseDiscipline, pauseDiscipline_benign_append _ _ hb]
        simp [ih false _]

theorem processLoop_count (env : Env) (l : List String) :
    ∀ (first : Bool) (res : List (String × Record)),
      countSleep20 ((processLoop env first res [] l).2) =
        if first && hasNavOk ((processLoop env first res [] l).2) then 1
        else 0 := by
  induction l with
  | nil => intro first res; simp [processLoop, countSleep20, hasNavOk]
  | cons doi rest ih =>
    intro first res
    have h2 : (processLoop env first res [] (doi :: rest)).2 =
        (processOne env first doi).2.1 ++
        (processLoop env (processOne env first doi).2.2
          (dictInsert doi (processOne env first doi).1 res) [] rest).2 := by
      have h0 : (processLoop env first res [] (doi :: rest)).2 =
          (processLoop env (processOne env first doi).2.2
            (dictInsert doi (processOne env first doi).1 res)
            ((processOne env first doi).2.1) rest).2 := rfl
      rw [h0, processLoop_trace_shift]
    rw [h2]
    rcases processOne_trace_shape env first doi with ⟨he, hf⟩ | ⟨u, he, hf⟩ |
      ⟨u, tail, he, hf, hb⟩
    · rw [he, hf]; simpa using ih first _
    · rw [he, hf]
      have := ih first (dictInsert doi (processOne env first doi).1 res)
      simp only [countSleep20, hasNavOk, List.countP_append, List.countP_cons,
        List.any_append, List.any_cons] at this ⊢
      simpa using this
    · rw [he, hf]
      have hrest := ih false (dictInsert doi (processOne env first doi).1 res)
      simp only [Bool.false_and, Bool.false_eq_true, if_false] at hrest
      have hbc := countSleep20_benign tail hb
      cases first <;>
        simp_all [countSleep20, hasNavOk, List.countP_append, List.countP_cons,
          List.any_append, List.any_cons]

/-- C7.  Across any batch, the trace obeys the pause discipline: each
successful navigation is immediately followed by the 20-second
authentication pause if it is the first successful navigation of the
batch (before any publisher action) and by the page-load wait with the
configured timeout otherwise; the 20-second pause happens exactly once
when some navigation succeeds, and never otherwise. -/
theorem C7_first_visit_pause (env : Env) (dois : List String) :
    pauseDiscipline env.wait_time true (process_dois env dois).2 = true ∧
    (hasNavOk (process_dois env dois).2 = true →
      countSleep20 (process_dois env dois).2 = 1) ∧
    (hasNavOk (process_dois env dois).2 = false →
      countSleep20 (process_dois env dois).2 = 0) := by
  refine ⟨processLoop_pause env dois true [], fun h => ?_, fun h => ?_⟩ <;>
  · have hc := processLoop_count env dois true []
    rw [process_dois]
    rw [process_dois] at h
    rw [hc, h]
    simp

/-- Witness for C7: a three-DOI batch on the happy-path environment
pauses exactly once. -/
theorem C7_witness :
    pauseDiscipline envACS.wait_time true
      (process_dois envACS ["a", "b", "c"]).2 = true ∧
    countSleep20 (process_dois envACS ["a", "b", "c"]).2 = 1 :=
  ⟨(C7_first_visit_pause envACS ["a", "b", "c"]).1,
   (C7_first_visit_pause envACS ["a", "b", "c"]).2.1 (by decide)⟩

/-! ## C9: close is idempotent and silent -/

/-- C9.  `close` never propagates an error, whatever the teardown does
and however many times it is called. -/
theorem C9_close_never_raises (d : DOI2PDFDownloader) :
    (∀ q1 q2, d.close q1 = .ok () ∧ d.close q2 = .ok ()) ∧
    (∀ qs, closeRuns d qs = qs.map fun _ => .ok ()) := by
  have h : ∀ q, d.close q = .ok () := by
    intro q
    cases hd : d.driver <;> cases q <;> simp [DOI2PDFDownloader.close, hd]
  refine ⟨fun q1 q2 => ⟨h q1, h q2⟩, fun qs => ?_⟩
  induction qs with
  | nil => rfl
  | cons q qs ih => simp only [closeRuns, List.map_cons] at ih ⊢; rw [h q, ih]

/-! ## C10: add_dois distinguishes a string from a list -/

/-- C10.  A single string is appended as exactly one queue entry (it is
not iterated character by character), a list extends the queue element
by element in order; existing contents are preserved. -/
theorem C10_add_dois :
    (∀ d s, (DOI2PDFDownloader.add_dois d (.one s)).queue = d.queue ++ [s]) ∧
    (∀ d l, (DOI2PDFDownloader.add_dois d (.many l)).queue = d.queue ++ l) ∧
    (DOI2PDFDownloader.add_dois ⟨[], some ()⟩ (.one "ab")).queue ≠ ["a", "b"] := by
  refine ⟨fun d s => rfl, fun d l => rfl, by decide⟩

/-- Witness for C9: two consecutive closes, the first with a raising
teardown, both return without error. -/
theorem C9_witness :
    DOI2PDFDownloader.close ⟨[], some ()⟩ (some (pys "boom")) = .ok () ∧
    DOI2PDFDownloader.close ⟨[], some ()⟩ none = .ok () :=
  (C9_close_never_raises ⟨[], some ()⟩).1 (some (pys "boom")) none

/-- Witness for C10 on a concrete queue. -/
theorem C10_witness :
    (DOI2PDFDownloader.add_dois ⟨["x"], some ()⟩ (.one "ab")).queue =
      ["x", "ab"] ∧
    (DOI2PDFDownloader.add_dois ⟨["x"], some ()⟩ (.many ["a", "b"])).queue =
      ["x", "a", "b"] :=
  ⟨C10_add_dois.1 ⟨["x"], some ()⟩ "ab",
   C10_add_dois.2.1 ⟨["x"], some ()⟩ ["a", "b"]⟩

end Doi2Pdf
